import Mathlib

/-!
Verification of the `configuration` package of shokada/newrelic-cli.

The Go source (`package configuration`) is shallowly embedded below:

* Go strings are `List Char` (`GoString`).
* JSON documents (the `p.cfg` byte buffer, parsed on demand by
  gjson/sjson) are the inductive `JsonValue`; a buffer is
  `Option (Option JsonValue)` where `none` is the nil slice and
  `some none` an empty (zero-length) slice.
* gjson paths are dot-separated components whose characters may be the
  wildcards `*` / `?` or backslash-escaped literals; gjson `Get`
  pattern-matches components against object keys (first match wins),
  while sjson `Set`/`Delete` reject paths containing unescaped
  wildcards and otherwise address literal keys.
* The process environment, the backing file and the possibility of a
  file-write failure form the `World`.
* The mutual recursion `getConfig -> setDefaultConfig -> Set ->
  getConfig` (broken at runtime by the `settingDefaults` flag) is
  embedded with an explicit fuel parameter; `Outcome.nofuel` marks fuel
  exhaustion (a model artifact, proved unreachable for fuel 2) and
  `Outcome.fatal` models `log.Fatalf` in `setDefaultConfig`.
* The non-reentrant `sync.Mutex` `p.mu` is modeled by a boolean `mu`
  ("the current call chain already holds the lock") threaded through
  the recursion: `SetWithScope` and `RemoveScope` acquire it around
  `getConfig` and the write, so a `p.mu.Lock()` reached while `mu` is
  already held blocks forever — `Outcome.deadlock`.  `GetWithScope`
  never locks, so loads it triggers run with `mu = false`.
-/

namespace Configuration

/-- Go strings, as lists of characters. -/
abbrev GoString := List Char

/-- `type ConfigKey string`. -/
abbrev ConfigKey := GoString

/-- JSON values as stored in the configuration document. -/
inductive JsonValue : Type where
  | null : JsonValue
  | bool : Bool → JsonValue
  | num : Int → JsonValue
  | str : GoString → JsonValue
  | obj : List (GoString × JsonValue) → JsonValue
deriving Repr

instance : Inhabited JsonValue := ⟨JsonValue.null⟩

/-- Errors produced by the package (and by the sjson library calls it
makes); each constructor corresponds to one `fmt.Errorf` site or
library error. -/
inductive GoError : Type where
  | notAnInt (v : JsonValue) : GoError
  | valueNotGreater (s gt : Int) : GoError
  | notAString (v : JsonValue) : GoError
  | notInAllowed (s : GoString) (allowed : List GoString) : GoError
  | duplicateKey (k : ConfigKey) : GoError
  | unknownKey (k : ConfigKey) (valid : List ConfigKey) : GoError
  | noValueFound (path : GoString) : GoError
  | sjsonWildcard : GoError
  | sjsonEmptyPath : GoError
  | fileWrite : GoError
deriving Repr

/-- One token of a gjson path component: a literal character, the `*`
wildcard or the `?` wildcard. -/
inductive PTok : Type where
  | lit (c : Char) : PTok
  | any : PTok
  | one : PTok
deriving Repr, DecidableEq

/-- Prepend a token to the first component of a parsed path. -/
def consTok (t : PTok) : List (List PTok) → List (List PTok)
  | [] => [[t]]
  | comp :: more => (t :: comp) :: more

/-- Parse a gjson/sjson path into components (dot-separated; backslash
escapes the next character; unescaped `*` / `?` are wildcards). -/
def parsePath : GoString → List (List PTok)
  | [] => [[]]
  | c :: rest =>
    if c = '.' then [] :: parsePath rest
    else if c = '\\' then
      match rest with
      | [] => [[PTok.lit '\\']]
      | c2 :: rest2 => consTok (PTok.lit c2) (parsePath rest2)
    else if c = '*' then consTok PTok.any (parsePath rest)
    else if c = '?' then consTok PTok.one (parsePath rest)
    else consTok (PTok.lit c) (parsePath rest)

/-- All suffixes of a string, longest first. -/
def suffixes : GoString → List GoString
  | [] => [[]]
  | c :: rest => (c :: rest) :: suffixes rest

/-- Glob-match one path component against an object key (`*` consumes
any — possibly empty — suffix prefix, `?` one character). -/
def tmatch : List PTok → GoString → Bool
  | [], s => s.isEmpty
  | PTok.lit c :: ps, s =>
    match s with
    | [] => false
    | k :: ks => c = k && tmatch ps ks
  | PTok.one :: ps, s =>
    match s with
    | [] => false
    | _ :: ks => tmatch ps ks
  | PTok.any :: ps, s => (suffixes s).any fun t => tmatch ps t

/-- Whether a component contains a wildcard token. -/
def compHasWild (c : List PTok) : Bool :=
  c.any fun t => match t with | PTok.lit _ => false | _ => true

/-- The literal key addressed by a wildcard-free component. -/
def compLit (c : List PTok) : GoString :=
  c.filterMap fun t => match t with | PTok.lit ch => some ch | _ => none

/-- Replace the value of the first entry with the given key. -/
def replaceKeyFirst : List (GoString × JsonValue) → GoString → JsonValue →
    List (GoString × JsonValue)
  | [], _, _ => []
  | (k0, v0) :: rest, k, nv =>
    if k0 = k then (k0, nv) :: rest
    else (k0, v0) :: replaceKeyFirst rest k nv

/-- Build nested singleton objects along the remaining literal path. -/
def buildNested : List GoString → JsonValue → JsonValue
  | [], v => v
  | k :: ks, v => JsonValue.obj [(k, buildNested ks v)]

/-- sjson value insertion along a literal component path: replaces the
value at an existing key (first occurrence, in place), appends a new
key at the end of the object, and replaces non-object values (and an
empty buffer) with fresh nested objects. -/
def setIn (doc : Option JsonValue) (cs : List GoString) (v : JsonValue) :
    JsonValue :=
  match cs with
  | [] => v
  | k :: ks =>
    match doc with
    | some (JsonValue.obj fs) =>
      match fs.find? (fun e => e.1 = k) with
      | some kv => JsonValue.obj (replaceKeyFirst fs k (setIn (some kv.2) ks v))
      | none => JsonValue.obj (fs ++ [(k, buildNested ks v)])
    | _ => JsonValue.obj [(k, buildNested ks v)]

/-- Remove the first entry with the given key. -/
def removeKeyFirst : List (GoString × JsonValue) → GoString →
    List (GoString × JsonValue)
  | [], _ => []
  | (k0, v0) :: rest, k =>
    if k0 = k then rest else (k0, v0) :: removeKeyFirst rest k

/-- sjson deletion along a literal component path; deleting a missing
path leaves the document unchanged. -/
def delIn (doc : JsonValue) (cs : List GoString) : JsonValue :=
  match cs, doc with
  | [k], JsonValue.obj fs => JsonValue.obj (removeKeyFirst fs k)
  | k :: (k2 :: ks), JsonValue.obj fs =>
    match fs.find? (fun e => e.1 = k) with
    | some kv => JsonValue.obj (replaceKeyFirst fs k (delIn kv.2 (k2 :: ks)))
    | none => JsonValue.obj fs
  | _, v => v

/-- `sjson.Set`: rejects an empty path and paths containing unescaped
wildcards, otherwise sets the value at the literal component path. -/
def sjsonSet (doc : Option JsonValue) (path : GoString) (v : JsonValue) :
    Except GoError JsonValue :=
  if path = [] then Except.error GoError.sjsonEmptyPath
  else if (parsePath path).any compHasWild then
    Except.error GoError.sjsonWildcard
  else Except.ok (setIn doc ((parsePath path).map compLit) v)

/-- `sjson.Delete`: rejects an empty path and paths containing
unescaped wildcards, otherwise deletes at the literal component path
(no error when the path is absent). -/
def sjsonDelete (doc : Option JsonValue) (path : GoString) :
    Except GoError (Option JsonValue) :=
  if path = [] then Except.error GoError.sjsonEmptyPath
  else if (parsePath path).any compHasWild then
    Except.error GoError.sjsonWildcard
  else
    match doc with
    | none => Except.ok none
    | some j => Except.ok (some (delIn j ((parsePath path).map compLit)))

/-- gjson lookup along pattern components: at each object level the
first key matching the component's glob pattern is taken. -/
def getPath (doc : JsonValue) (cs : List (List PTok)) : Option JsonValue :=
  match cs with
  | [] => some doc
  | p :: ps =>
    match doc with
    | JsonValue.obj fs =>
      match fs.find? (fun e => tmatch p e.1) with
      | some kv => getPath kv.2 ps
      | none => none
    | _ => none

/-- `gjson.Get` on the rendered buffer (an empty buffer has no
results). -/
def gjsonGet (doc : Option JsonValue) (path : GoString) : Option JsonValue :=
  doc.bind fun j => getPath j (parsePath path)

/-- `strings.EqualFold` (simple case folding). -/
def eqFold (a b : GoString) : Bool :=
  a.map Char.toLower = b.map Char.toLower

/-- `type FieldDefinition struct`.  `Default` is `interface{}` and may
be nil (`none`); `ValidationFunc` may be nil (`none`). -/
structure FieldDefinition : Type where
  EnvVar : GoString
  Key : ConfigKey
  Default : Option JsonValue
  CaseSensitive : Bool
  Sensitive : Bool
  ValidationFunc : Option (ConfigKey → JsonValue → Option GoError)

/-- `type ConfigProvider struct`.  `cfg` is the byte buffer: `none` is
a nil slice, `some none` an empty slice, `some (some j)` a buffer
holding the JSON document `j`.  The non-reentrant mutex `p.mu` is not a
stored field here: operations are sequential, so its only observable
effect is the self-deadlock of a `Lock()` reached while the current
call chain already holds it, modeled by the `mu` flag threaded through
the operations below. -/
structure ConfigProvider : Type where
  cfg : Option (Option JsonValue)
  fields : List FieldDefinition
  fileName : GoString
  scope : GoString
  dirty : Bool
  explicitValues : Bool
  settingDefaults : Bool

/-- The process environment, the backing file (`none` = missing or
unreadable, `some none` = empty, `some (some j)` = the document `j`)
and whether `os.WriteFile` fails. -/
structure World : Type where
  env : GoString → Option GoString
  file : Option (Option JsonValue)
  writeFails : Bool

/-- `StringInStrings` validator factory. -/
def StringInStrings (caseSensitive : Bool) (allowedValues : List GoString) :
    ConfigKey → JsonValue → Option GoError :=
  fun _key value =>
    match value with
    | JsonValue.str s =>
      if allowedValues.any
          (fun v => (caseSensitive && s = v) || (!caseSensitive && eqFold s v))
      then none
      else some (GoError.notInAllowed s allowedValues)
    | v => some (GoError.notAString v)

/-- `IntGreaterThan` validator factory. -/
def IntGreaterThan (greaterThan : Int) :
    ConfigKey → JsonValue → Option GoError :=
  fun _key value =>
    match value with
    | JsonValue.num s =>
      if s > greaterThan then none
      else some (GoError.valueNotGreater s greaterThan)
    | v => some (GoError.notAnInt v)

/-- `getFieldDefinition`: the first definition matching the key
(case-folded match for case-insensitive definitions, exact match
otherwise). -/
def getFieldDefinition (p : ConfigProvider) (key : ConfigKey) :
    Option FieldDefinition :=
  p.fields.find? fun v =>
    (!v.CaseSensitive && eqFold key v.Key) || (v.CaseSensitive && key = v.Key)

/-- `getConfigValueKeys`: all registered keys, in order. -/
def getConfigValueKeys (p : ConfigProvider) : List ConfigKey :=
  p.fields.map FieldDefinition.Key

/-- `escapeWildcards`: backslash-escape every `*` and `?`. -/
def escapeWildcards : GoString → GoString
  | [] => []
  | c :: rest =>
    if c = '*' || c = '?' then '\\' :: c :: escapeWildcards rest
    else c :: escapeWildcards rest

/-- The key actually used by `GetWithScope`/`SetWithScope` after
case-convention normalization from the matching field definition. -/
def normKey (p : ConfigProvider) (key : ConfigKey) : ConfigKey :=
  match getFieldDefinition p key with
  | some d => if d.CaseSensitive then key else d.Key
  | none => key

/-- The dotted path built by `GetWithScope`/`SetWithScope` (the
provider-level fixed scope overwrites the call-site scope). -/
def resolvePath (pscope scope key : GoString) : GoString :=
  let path := key
  let path := if scope = [] then path else scope ++ '.' :: key
  let path := if pscope = [] then path else pscope ++ '.' :: key
  path

/-- The full path for a key as resolved by both accessors. -/
def pathFor (p : ConfigProvider) (scope key : GoString) : GoString :=
  resolvePath p.scope scope (normKey p key)

/-- Whether the buffer is nil or zero-length (`p.cfg == nil ||
len(p.cfg) == 0`). -/
def bufEmpty (b : Option (Option JsonValue)) : Bool :=
  b.join.isNone

/-- `setConfigFromFile`: a read failure is silently tolerated. -/
def setConfigFromFile (w : World) (p : ConfigProvider) : ConfigProvider :=
  match w.file with
  | none => p
  | some contents => { p with cfg := some contents }

/-- `writeConfig`: marks the buffer dirty and replaces it with the
given serialized document (`none` = the empty string), then persists
to the backing file when one is configured, propagating a write
failure. -/
def writeConfig (w : World) (p : ConfigProvider) (newdoc : Option JsonValue) :
    World × ConfigProvider × Option GoError :=
  let p := { p with dirty := true, cfg := some newdoc }
  if p.fileName = [] then (w, p, none)
  else if w.writeFails then (w, p, some GoError.fileWrite)
  else ({ w with file := some newdoc }, p, none)

/-- Results of an embedded stateful operation: a normal result, the
process-fatal `log.Fatalf` exit in `setDefaultConfig`, the permanent
block of a `p.mu.Lock()` acquired while the (non-reentrant) mutex is
already held by the current call chain, or fuel exhaustion (a model
artifact, unreachable for fuel 2). -/
inductive Outcome (α : Type) : Type where
  | out (a : α) : Outcome α
  | fatal : Outcome α
  | deadlock : Outcome α
  | nofuel : Outcome α
deriving Repr

mutual

/-- `getConfig`: lazily loads the buffer from the backing file and
materializes defaults when it is still empty, guarded by the
`settingDefaults` re-entrancy flag; returns the provider, world and
the rendered buffer (`none` = empty string).  `mu` records whether the
caller already holds `p.mu` (true under `SetWithScope`/`RemoveScope`,
false under `GetWithScope`); `getConfig` itself never locks and only
passes the flag down to the sets performed by materialization. -/
def getConfigF : Nat → Bool → ConfigProvider → World →
    Outcome (ConfigProvider × World × Option JsonValue)
  | 0, _, _, _ => Outcome.nofuel
  | Nat.succ f, mu, p, w =>
    if !p.settingDefaults && (p.cfg.isNone || p.dirty) then
      getConfigStep f mu
        (if p.fileName = [] then p else setConfigFromFile w p) w
    else Outcome.out (p, w, p.cfg.join)
termination_by f => (f, 0, 0)

/-- The tail of `getConfig` after the file read: materialize defaults
into a still-empty buffer (with the re-entrancy flag up), then clear
the dirty flag. -/
def getConfigStep (f : Nat) (mu : Bool) (p : ConfigProvider) (w : World) :
    Outcome (ConfigProvider × World × Option JsonValue) :=
  if bufEmpty p.cfg then
    match setDefaultsLoopF f mu p.fields
        { p with settingDefaults := true } w with
    | Outcome.out (p2, w2) =>
      Outcome.out ({ p2 with settingDefaults := false, dirty := false },
        w2, p2.cfg.join)
    | Outcome.fatal => Outcome.fatal
    | Outcome.deadlock => Outcome.deadlock
    | Outcome.nofuel => Outcome.nofuel
  else Outcome.out ({ p with dirty := false }, w, p.cfg.join)
termination_by (f, 3, 0)

/-- The loop body of `setDefaultConfig`: for every field definition
with a non-nil default, `Set` the default; a failure is `log.Fatalf`
(process-fatal).  The sets inherit the caller's lock state `mu`: when
materialization was entered from inside `SetWithScope`/`RemoveScope`
(lock held), each such inner `Set` blocks forever at its own
`p.mu.Lock()`. -/
def setDefaultsLoopF : Nat → Bool → List FieldDefinition → ConfigProvider →
    World → Outcome (ConfigProvider × World)
  | _, _, [], p, w => Outcome.out (p, w)
  | f, mu, v :: rest, p, w =>
    match v.Default with
    | none => setDefaultsLoopF f mu rest p w
    | some d =>
      match setWithScopeF f mu [] v.Key d p w with
      | Outcome.out (p, w, none) => setDefaultsLoopF f mu rest p w
      | Outcome.out (_, _, some _) => Outcome.fatal
      | Outcome.fatal => Outcome.fatal
      | Outcome.deadlock => Outcome.deadlock
      | Outcome.nofuel => Outcome.nofuel
termination_by f _ fs => (f, 2, fs.length)

/-- `SetWithScope`: validates against the matching field definition
(or rejects unregistered keys in explicit-values mode), normalizes the
key case, resolves the path, and performs the locked
read-modify-write with wildcards escaped for sjson. -/
def setWithScopeF (f : Nat) (mu : Bool) (scope : GoString) (key : ConfigKey)
    (value : JsonValue) (p : ConfigProvider) (w : World) :
    Outcome (ConfigProvider × World × Option GoError) :=
  match getFieldDefinition p key with
  | some v =>
    match v.ValidationFunc with
    | some vf =>
      match vf key value with
      | some err => Outcome.out (p, w, some err)
      | none =>
        setWithScopeGo f mu scope (if v.CaseSensitive then key else v.Key)
          value p w
    | none =>
      setWithScopeGo f mu scope (if v.CaseSensitive then key else v.Key)
        value p w
  | none =>
    if p.explicitValues then
      Outcome.out (p, w, some (GoError.unknownKey key (getConfigValueKeys p)))
    else setWithScopeGo f mu scope key value p w
termination_by (f, 1, 1)

/-- The tail of `SetWithScope` after validation and key normalization:
path resolution, then `p.mu.Lock()` — which blocks forever when the
current call chain already holds the non-reentrant mutex (`mu`) — then
`sjson.Set` on the buffer lazily loaded under the lock, and
`writeConfig`. -/
def setWithScopeGo (f : Nat) (mu : Bool) (scope : GoString) (key : ConfigKey)
    (value : JsonValue) (p : ConfigProvider) (w : World) :
    Outcome (ConfigProvider × World × Option GoError) :=
  let path := resolvePath p.scope scope key
  if mu then Outcome.deadlock
  else
    match getConfigF f true p w with
    | Outcome.out (p, w, doc) =>
      match sjsonSet doc (escapeWildcards path) value with
      | Except.error e => Outcome.out (p, w, some e)
      | Except.ok newdoc =>
        let (w, p, werr) := writeConfig w p (some newdoc)
        Outcome.out (p, w, werr)
    | Outcome.fatal => Outcome.fatal
    | Outcome.deadlock => Outcome.deadlock
    | Outcome.nofuel => Outcome.nofuel
termination_by (f, 1, 0)

end

/-- The tail of `GetWithScope` after the environment check and key
normalization: path resolution and a `gjson.Get` on the lazily loaded
buffer; a missing value is an error (the Go function returns `""`
together with the error).  `GetWithScope` never acquires `p.mu`, so
the load runs with the lock free (`mu = false`). -/
def getWithScopeGo (f : Nat) (scope : GoString) (key : ConfigKey)
    (p : ConfigProvider) (w : World) :
    Outcome (ConfigProvider × World × Except GoError JsonValue) :=
  let path := resolvePath p.scope scope key
  match getConfigF f false p w with
  | Outcome.out (p, w, doc) =>
    match gjsonGet doc path with
    | some res => Outcome.out (p, w, Except.ok res)
    | none => Outcome.out (p, w, Except.error (GoError.noValueFound path))
  | Outcome.fatal => Outcome.fatal
  | Outcome.deadlock => Outcome.deadlock
  | Outcome.nofuel => Outcome.nofuel

/-- `GetWithScope`: environment override first, then case
normalization, then `getWithScopeGo`. -/
def getWithScopeF (f : Nat) (scope : GoString) (key : ConfigKey)
    (p : ConfigProvider) (w : World) :
    Outcome (ConfigProvider × World × Except GoError JsonValue) :=
  match getFieldDefinition p key with
  | some d =>
    match w.env d.EnvVar with
    | some e => Outcome.out (p, w, Except.ok (JsonValue.str e))
    | none => getWithScopeGo f scope (if d.CaseSensitive then key else d.Key) p w
  | none => getWithScopeGo f scope key p w

/-- `RemoveScope`: acquires `p.mu` (free at this public entry), then
deletes the subtree at the (fixed-scope prefixed) path, with no
wildcard escaping, and persists.  The lazy load runs under the lock
(`mu = true`), so a load that must materialize defaults deadlocks at
the inner `Set`. -/
def removeScopeF (f : Nat) (scope : GoString) (p : ConfigProvider) (w : World) :
    Outcome (ConfigProvider × World × Option GoError) :=
  let path := if p.scope = [] then scope else p.scope ++ '.' :: scope
  match getConfigF f true p w with
  | Outcome.out (p, w, doc) =>
    match sjsonDelete doc path with
    | Except.error e => Outcome.out (p, w, some e)
    | Except.ok newdoc =>
      let (w, p, werr) := writeConfig w p newdoc
      Outcome.out (p, w, werr)
  | Outcome.fatal => Outcome.fatal
  | Outcome.deadlock => Outcome.deadlock
  | Outcome.nofuel => Outcome.nofuel

/-- `GetWithScope` at the fuel bound (proved sufficient below). -/
def GetWithScope (scope : GoString) (key : ConfigKey) (p : ConfigProvider)
    (w : World) : Outcome (ConfigProvider × World × Except GoError JsonValue) :=
  getWithScopeF 2 scope key p w

/-- `SetWithScope` at the fuel bound (proved sufficient below); at
this public entry the mutex is free. -/
def SetWithScope (scope : GoString) (key : ConfigKey) (value : JsonValue)
    (p : ConfigProvider) (w : World) :
    Outcome (ConfigProvider × World × Option GoError) :=
  setWithScopeF 2 false scope key value p w

/-- `RemoveScope` at the fuel bound. -/
def RemoveScope (scope : GoString) (p : ConfigProvider) (w : World) :
    Outcome (ConfigProvider × World × Option GoError) :=
  removeScopeF 2 scope p w

/-- A provider as built by `NewConfigProvider` with no options. -/
def emptyProvider : ConfigProvider :=
  { cfg := none, fields := [], fileName := [], scope := [],
    dirty := false, explicitValues := false, settingDefaults := false }

/-- `WithFieldDefinitions`: appends each definition in order, first
rejecting a case-insensitive definition whose key case-folds equal to
any already-registered key. -/
def WithFieldDefinitions (definitions : List FieldDefinition)
    (p : ConfigProvider) : Except GoError ConfigProvider :=
  match definitions with
  | [] => Except.ok p
  | d :: rest =>
    if !d.CaseSensitive &&
        (getConfigValueKeys p).any (fun k => eqFold k d.Key) then
      Except.error (GoError.duplicateKey d.Key)
    else WithFieldDefinitions rest { p with fields := p.fields ++ [d] }

/-- `WithExplicitValues`. -/
def WithExplicitValues (p : ConfigProvider) : Except GoError ConfigProvider :=
  Except.ok { p with explicitValues := true }

/-- `WithFilePersistence`. -/
def WithFilePersistence (fileName : GoString) (p : ConfigProvider) :
    Except GoError ConfigProvider :=
  Except.ok { p with fileName := fileName }

/-- `WithScope`. -/
def WithScope (scope : GoString) (p : ConfigProvider) :
    Except GoError ConfigProvider :=
  Except.ok { p with scope := scope }

/-- `NewConfigProvider`: applies the options in order, stopping at the
first failure. -/
def NewConfigProvider
    (opts : List (ConfigProvider → Except GoError ConfigProvider)) :
    Except GoError ConfigProvider :=
  opts.foldlM (fun p fn => fn p) emptyProvider

/-- A plain key: nonempty and free of the path metacharacters
(component separator, wildcards, escape). -/
def plainKey (k : GoString) : Prop :=
  k ≠ [] ∧ '.' ∉ k ∧ '*' ∉ k ∧ '?' ∉ k ∧ '\\' ∉ k

instance (k : GoString) : Decidable (plainKey k) := by
  unfold plainKey; infer_instance

/-! ### Invariants, materialized entries and claim fixtures -/

/-- The provider components never touched by `getConfig` /
`SetWithScope` (everything except the buffer and the dirty flag). -/
def Pres (p p2 : ConfigProvider) : Prop :=
  p2.fields = p.fields ∧ p2.scope = p.scope ∧ p2.fileName = p.fileName ∧
  p2.explicitValues = p.explicitValues ∧
  p2.settingDefaults = p.settingDefaults

/-- The world components never touched by any operation. -/
def WPres (w w2 : World) : Prop :=
  w2.env = w.env ∧ w2.writeFails = w.writeFails

/-- The key/default pairs of the field definitions carrying a non-nil
default, in registration order. -/
def defaultEntries (fs : List FieldDefinition) :
    List (GoString × JsonValue) :=
  fs.filterMap fun v => v.Default.map fun d => (v.Key, d)

/-- The buffer holding exactly the given object entries (the nil
buffer when there are none). -/
def bufOf : List (GoString × JsonValue) → Option (Option JsonValue)
  | [] => none
  | e :: es => some (some (JsonValue.obj (e :: es)))

/-- A world with no environment variables set, no backing file, and a
working disk. -/
def envNone : World := { env := fun _ => none, file := none, writeFails := false }

/-- The spec's `region` field: case-insensitive, default `"us"`,
validator `StringInStrings(false, "us", "eu")`, environment override
`NEW_RELIC_REGION`. -/
def regionField : FieldDefinition :=
  { EnvVar := ("NEW_RELIC_REGION").toList, Key := ("region").toList,
    Default := some (JsonValue.str ("us").toList),
    CaseSensitive := false, Sensitive := false,
    ValidationFunc := some (StringInStrings false
      [("us").toList, ("eu").toList]) }

/-- The spec's `apiKey` field: no default, no validator. -/
def apiKeyField : FieldDefinition :=
  { EnvVar := ("NEW_RELIC_API_KEY").toList, Key := ("apiKey").toList,
    Default := none, CaseSensitive := true, Sensitive := true,
    ValidationFunc := none }

/-- A provider holding a stored `region` value different from both the
default and the environment value. -/
def pC1 : ConfigProvider :=
  { emptyProvider with
      fields := [regionField],
      cfg := some (some (JsonValue.obj
        [(("region").toList, JsonValue.str ("stored").toList)])) }

/-- A world where `NEW_RELIC_REGION` is set to `eu`. -/
def wC1 : World :=
  { env := fun n => if n = ("NEW_RELIC_REGION").toList
      then some (("eu").toList) else none,
    file := none, writeFails := false }

/-- A provider with the fixed scope `prof` and a stored value under
it. -/
def pC8 : ConfigProvider :=
  { emptyProvider with
      scope := ("prof").toList,
      cfg := some (some (JsonValue.obj [(("prof").toList,
        JsonValue.obj [(("k").toList, JsonValue.num 7)])])) }

def c2doc1 : JsonValue := JsonValue.obj [(("ab").toList, JsonValue.num 1)]

def c2doc2 : JsonValue := JsonValue.obj
  [(("ab").toList, JsonValue.num 1), (("a*").toList, JsonValue.num 2)]

def c2p1 : ConfigProvider :=
  { emptyProvider with cfg := some (some c2doc1), dirty := true }

def c2p2 : ConfigProvider :=
  { emptyProvider with cfg := some (some c2doc2), dirty := true }

def c2p2r : ConfigProvider :=
  { emptyProvider with cfg := some (some c2doc2), dirty := false }

def c2wp : ConfigProvider :=
  { emptyProvider with
      cfg := some (some (JsonValue.obj [(("k").toList, JsonValue.num 5)])),
      dirty := true }

/-- A case-sensitive definition of key `k` with default `1`. -/
def fdK1 : FieldDefinition :=
  { EnvVar := [], Key := ("k").toList, Default := some (JsonValue.num 1),
    CaseSensitive := true, Sensitive := false, ValidationFunc := none }

/-- A second case-sensitive definition of the same key `k` with
default `2` (registration accepts it: the duplicate check only guards
new case-insensitive definitions). -/
def fdK2 : FieldDefinition :=
  { EnvVar := [], Key := ("k").toList, Default := some (JsonValue.num 2),
    CaseSensitive := true, Sensitive := false, ValidationFunc := none }

def c3p : ConfigProvider := { emptyProvider with fields := [fdK1, fdK2] }

def c3pr : ConfigProvider :=
  { c3p with cfg := some (some (JsonValue.obj
      [(("k").toList, JsonValue.num 2)])) }

def pC3W : ConfigProvider :=
  { emptyProvider with fields := [regionField, apiKeyField] }

def c4doc : JsonValue := JsonValue.obj [(("ab").toList, JsonValue.num 1)]

def pC4 : ConfigProvider := { emptyProvider with cfg := some (some c4doc) }

/-- A case-sensitive definition of `key`. -/
def fdCS : FieldDefinition :=
  { EnvVar := [], Key := ("key").toList, Default := none,
    CaseSensitive := true, Sensitive := false, ValidationFunc := none }

/-- A case-insensitive definition of `KEY` (same case-folded key as
`fdCS`). -/
def fdCI : FieldDefinition :=
  { EnvVar := [], Key := ("KEY").toList, Default := none,
    CaseSensitive := false, Sensitive := false, ValidationFunc := none }

/-- A provider with a backing file and a loaded buffer. -/
def pFileFail : ConfigProvider :=
  { emptyProvider with
      fileName := ("f").toList,
      cfg := some (some (JsonValue.obj [(("x").toList, JsonValue.num 9)])) }

/-- A world whose backing file holds the same document but where
`os.WriteFile` fails. -/
def wFileFail : World :=
  { env := fun _ => none,
    file := some (some (JsonValue.obj [(("x").toList, JsonValue.num 9)])),
    writeFails := true }

/-- The provider state left behind by the failed set of C6/C10: buffer
replaced with the new document and marked dirty. -/
def pFileFailAfter : ConfigProvider :=
  { pFileFail with
      cfg := some (some (JsonValue.obj [(("x").toList, JsonValue.num 9),
        (("k").toList, JsonValue.num 1)])),
      dirty := true }

def pExplicit : ConfigProvider := { emptyProvider with explicitValues := true }

/-- A fresh provider (nil buffer, no file) with one default-bearing
field: the first `Set`/`RemoveScope` on it must materialize defaults
while holding `p.mu`, and the inner `Set` blocks on the already-held
mutex. -/
def pDead : ConfigProvider := { emptyProvider with fields := [fdK1] }

/-- `pDead` after a get-triggered (lock-free) materialization of its
single default. -/
def pDeadAfter : ConfigProvider :=
  { pDead with
      cfg := some (some (JsonValue.obj [(("k").toList, JsonValue.num 1)])) }

/-! ### Path-parsing and glob-matching lemmas -/

theorem tmatch_lits (l s : GoString) :
    tmatch (l.map PTok.lit) s = decide (l = s) := by
  induction l generalizing s with
  | nil => cases s <;> simp [tmatch]
  | cons c rest ih =>
    cases s with
    | nil => simp [tmatch]
    | cons c2 s2 =>
      simp only [List.map_cons, tmatch, ih]
      by_cases h1 : c = c2 <;> by_cases h2 : rest = s2 <;>
        simp [h1, h2]

theorem noWild_eq_map_lit {c : List PTok} (h : compHasWild c = false) :
    c = (compLit c).map PTok.lit := by
  induction c with
  | nil => rfl
  | cons t rest ih =>
    cases t with
    | lit ch =>
      simp only [compHasWild, List.any_cons, Bool.or_eq_false_iff] at h
      simpa [compLit] using ih h.2
    | any => simp [compHasWild] at h
    | one => simp [compHasWild] at h

theorem compHasWild_map_lit (k : GoString) :
    compHasWild (k.map PTok.lit) = false := by
  induction k with
  | nil => rfl
  | cons c rest ih => simp [compHasWild] at ih ⊢

theorem compLit_map_lit (k : GoString) : compLit (k.map PTok.lit) = k := by
  induction k with
  | nil => rfl
  | cons c rest ih => simpa [compLit] using ih

theorem consTok_ne_nil (t : PTok) (l : List (List PTok)) :
    consTok t l ≠ [] := by
  cases l <;> simp [consTok]

theorem parsePath_ne_nil (s : GoString) : parsePath s ≠ [] := by
  cases s with
  | nil => simp [parsePath]
  | cons c rest =>
    rw [parsePath.eq_def]
    simp only []
    split
    · simp
    · split
      · split
        · simp
        · exact consTok_ne_nil _ _
      · split
        · exact consTok_ne_nil _ _
        · split
          · exact consTok_ne_nil _ _
          · exact consTok_ne_nil _ _

theorem parsePath_step {c : Char} {rest : GoString} (hdot : c ≠ '.')
    (hbs : c ≠ '\\') (hstar : c ≠ '*') (hq : c ≠ '?') :
    parsePath (c :: rest) = consTok (PTok.lit c) (parsePath rest) := by
  rw [parsePath.eq_def]
  simp only []
  rw [if_neg hdot, if_neg hbs, if_neg hstar, if_neg hq]

theorem parsePath_plain {k : GoString} (h : plainKey k) :
    parsePath k = [k.map PTok.lit] := by
  obtain ⟨hne, hdot, hstar, hq, hbs⟩ := h
  induction k with
  | nil => exact absurd rfl hne
  | cons c rest ih =>
    simp only [List.mem_cons, not_or] at hdot hstar hq hbs
    have hstep := @parsePath_step c rest
      (fun hh => hdot.1 hh.symm) (fun hh => hbs.1 hh.symm)
      (fun hh => hstar.1 hh.symm) (fun hh => hq.1 hh.symm)
    rcases rest with _ | ⟨c2, rest2⟩
    · rw [hstep]; rfl
    · rw [hstep, ih (by simp) hdot.2 hstar.2 hq.2 hbs.2]
      rfl

theorem escapeWildcards_id {s : GoString} (hstar : '*' ∉ s) (hq : '?' ∉ s) :
    escapeWildcards s = s := by
  induction s with
  | nil => rfl
  | cons c rest ih =>
    simp only [List.mem_cons, not_or] at hstar hq
    simp only [escapeWildcards]
    rw [if_neg ?_, ih hstar.2 hq.2]
    simp only [Bool.or_eq_true, decide_eq_true_eq, not_or]
    exact ⟨fun hh => hstar.1 hh.symm, fun hh => hq.1 hh.symm⟩

theorem consTok_noWild {t : PTok} (ht : compHasWild [t] = false)
    {l : List (List PTok)} (hl : ∀ c ∈ l, compHasWild c = false) :
    ∀ c ∈ consTok t l, compHasWild c = false := by
  cases l with
  | nil =>
    intro c hc
    simp only [consTok, List.mem_singleton] at hc
    subst hc; exact ht
  | cons comp more =>
    intro c hc
    simp only [consTok, List.mem_cons] at hc
    rcases hc with rfl | hc
    · have h1 := hl comp (List.mem_cons_self _ _)
      simp only [compHasWild, List.any_cons, List.any_nil,
        Bool.or_eq_false_iff] at ht h1 ⊢
      exact ⟨ht.1, h1⟩
    · exact hl c (List.mem_cons_of_mem _ hc)

theorem parsePath_noWildChars (s : GoString) (hstar : '*' ∉ s)
    (hq : '?' ∉ s) : ∀ c ∈ parsePath s, compHasWild c = false := by
  induction s using parsePath.induct with
  | case1 =>
    intro c hc
    simp only [parsePath, List.mem_singleton] at hc
    subst hc; rfl
  | case2 rest2 ih =>
    simp only [List.mem_cons, not_or] at hstar hq
    intro c hc
    rw [parsePath.eq_def] at hc
    simp only [if_pos rfl] at hc
    rcases List.mem_cons.mp hc with rfl | hc
    · rfl
    · exact ih hstar.2 hq.2 c hc
  | case3 hbs =>
    intro c hc
    rw [parsePath.eq_def] at hc
    simp at hc
    subst hc; rfl
  | case4 c2 rest2 hbs ih =>
    simp only [List.mem_cons, not_or] at hstar hq
    intro c hc
    rw [parsePath.eq_def] at hc
    simp only [if_neg hbs, if_pos rfl] at hc
    exact consTok_noWild (by rfl) (ih hstar.2.2 hq.2.2) c hc
  | case5 rest2 h1 h2 ih => simp at hstar
  | case6 rest2 h1 h2 h3 ih => simp at hq
  | case7 c2 rest2 hdot hbs hs hq2 ih =>
    simp only [List.mem_cons, not_or] at hstar hq
    intro c hc
    rw [parsePath.eq_def] at hc
    simp only [if_neg hdot, if_neg hbs, if_neg hs, if_neg hq2] at hc
    exact consTok_noWild (by rfl) (ih hstar.2 hq.2) c hc

/-! ### Read-after-write through sjson.Set and gjson.Get -/

theorem find?_replaceKeyFirst {fs : List (GoString × JsonValue)}
    {k : GoString} {kv : GoString × JsonValue} (nv : JsonValue)
    (h : fs.find? (fun e => e.1 = k) = some kv) :
    (replaceKeyFirst fs k nv).find?
      (fun e => tmatch (k.map PTok.lit) e.1) = some (k, nv) := by
  induction fs with
  | nil => simp [List.find?] at h
  | cons e rest ih =>
    obtain ⟨k0, v0⟩ := e
    by_cases hk : k0 = k
    · subst hk
      simp [replaceKeyFirst, List.find?, tmatch_lits]
    · rw [List.find?_cons_of_neg _ (by simp [hk])] at h
      simp only [replaceKeyFirst, if_neg hk]
      rw [List.find?_cons_of_neg _ (by
        simp only [tmatch_lits, decide_eq_true_eq]
        exact fun hh => hk hh.symm)]
      exact ih h

theorem find?_append_new {fs : List (GoString × JsonValue)} {k : GoString}
    (x : JsonValue) (h : fs.find? (fun e => e.1 = k) = none) :
    (fs ++ [(k, x)]).find?
      (fun e => tmatch (k.map PTok.lit) e.1) = some (k, x) := by
  induction fs with
  | nil => simp [List.find?, tmatch_lits]
  | cons e rest ih =>
    obtain ⟨k0, v0⟩ := e
    simp only [List.find?_cons_of_neg, List.find?_eq_none] at h
    have hk0 : ¬(k0 = k) := by
      have := h (k0, v0) (List.mem_cons_self _ _)
      simpa using this
    rw [List.cons_append,
      List.find?_cons_of_neg _ (by
        simp only [tmatch_lits, decide_eq_true_eq]
        exact fun hh => hk0 hh.symm)]
    exact ih (List.find?_eq_none.mpr
      (fun e he => h e (List.mem_cons_of_mem _ he)))

theorem getPath_buildNested (ks : List GoString) (v : JsonValue) :
    getPath (buildNested ks v) (ks.map (fun k => k.map PTok.lit)) = some v := by
  induction ks with
  | nil => rfl
  | cons k rest ih =>
    simp only [buildNested, List.map_cons, getPath, List.find?,
      tmatch_lits, decide_True]
    simpa using ih

theorem getPath_obj_cons (fs : List (GoString × JsonValue)) (p : List PTok)
    (ps : List (List PTok)) :
    getPath (JsonValue.obj fs) (p :: ps) =
      match fs.find? (fun e => tmatch p e.1) with
      | some kv => getPath kv.2 ps
      | none => none := rfl

theorem setIn_cons_obj_found {fs : List (GoString × JsonValue)} {k : GoString}
    {kv : GoString × JsonValue} (hf : fs.find? (fun e => e.1 = k) = some kv)
    (ks : List GoString) (v : JsonValue) :
    setIn (some (JsonValue.obj fs)) (k :: ks) v =
      JsonValue.obj (replaceKeyFirst fs k (setIn (some kv.2) ks v)) := by
  simp only [setIn, hf]

theorem setIn_cons_obj_new {fs : List (GoString × JsonValue)} {k : GoString}
    (hf : fs.find? (fun e => e.1 = k) = none)
    (ks : List GoString) (v : JsonValue) :
    setIn (some (JsonValue.obj fs)) (k :: ks) v =
      JsonValue.obj (fs ++ [(k, buildNested ks v)]) := by
  simp only [setIn, hf]

theorem getPath_setIn (ks : List GoString) (doc : Option JsonValue)
    (v : JsonValue) :
    getPath (setIn doc ks v) (ks.map (fun k => k.map PTok.lit)) = some v := by
  induction ks generalizing doc with
  | nil => cases doc <;> rfl
  | cons k rest ih =>
    have hfresh : ∀ bn : JsonValue,
        getPath (JsonValue.obj [(k, bn)])
          ((k :: rest).map (fun k2 => k2.map PTok.lit)) =
        getPath bn (rest.map (fun k2 => k2.map PTok.lit)) := by
      intro bn
      rw [List.map_cons, getPath_obj_cons,
        List.find?_cons_of_pos _ (by simp [tmatch_lits])]
    match doc with
    | some (JsonValue.obj fs) =>
      cases hf : fs.find? (fun e => e.1 = k) with
      | some kv =>
        rw [setIn_cons_obj_found hf, List.map_cons, getPath_obj_cons,
          find?_replaceKeyFirst _ hf]
        exact ih (some kv.2)
      | none =>
        rw [setIn_cons_obj_new hf, List.map_cons, getPath_obj_cons,
          find?_append_new _ hf]
        exact getPath_buildNested rest v
    | none =>
      rw [show setIn none (k :: rest) v =
        JsonValue.obj [(k, buildNested rest v)] from rfl, hfresh]
      exact getPath_buildNested rest v
    | some JsonValue.null =>
      rw [show setIn (some JsonValue.null) (k :: rest) v =
        JsonValue.obj [(k, buildNested rest v)] from rfl, hfresh]
      exact getPath_buildNested rest v
    | some (JsonValue.bool b) =>
      rw [show setIn (some (JsonValue.bool b)) (k :: rest) v =
        JsonValue.obj [(k, buildNested rest v)] from rfl, hfresh]
      exact getPath_buildNested rest v
    | some (JsonValue.num n) =>
      rw [show setIn (some (JsonValue.num n)) (k :: rest) v =
        JsonValue.obj [(k, buildNested rest v)] from rfl, hfresh]
      exact getPath_buildNested rest v
    | some (JsonValue.str s) =>
      rw [show setIn (some (JsonValue.str s)) (k :: rest) v =
        JsonValue.obj [(k, buildNested rest v)] from rfl, hfresh]
      exact getPath_buildNested rest v

theorem gjson_get_after_sjson_set {path : GoString} {doc : Option JsonValue}
    {value newdoc : JsonValue} (hstar : '*' ∉ path) (hq : '?' ∉ path)
    (h : sjsonSet doc (escapeWildcards path) value = Except.ok newdoc) :
    gjsonGet (some newdoc) path = some value := by
  rw [escapeWildcards_id hstar hq] at h
  unfold sjsonSet at h
  by_cases hp : path = []
  · rw [if_pos hp] at h; cases h
  · rw [if_neg hp] at h
    have hw : (parsePath path).any compHasWild = false := by
      rw [List.any_eq_false]
      intro c hc
      simp only [Bool.not_eq_true]
      exact parsePath_noWildChars path hstar hq c hc
    rw [if_neg (by simp [hw])] at h
    cases h
    unfold gjsonGet
    simp only [Option.some_bind]
    have hcomps : parsePath path =
        ((parsePath path).map compLit).map (fun k => k.map PTok.lit) := by
      rw [List.map_map]
      conv_lhs => rw [(List.map_id (parsePath path)).symm]
      apply List.map_congr_left
      intro c hc
      exact noWild_eq_map_lit (parsePath_noWildChars path hstar hq c hc)
    have hmain := getPath_setIn ((parsePath path).map compLit) doc value
    rw [← hcomps] at hmain
    exact hmain

/-! ### Fuel and state-preservation lemmas for the lazy-load recursion -/

theorem Pres_refl (p : ConfigProvider) : Pres p p :=
  ⟨rfl, rfl, rfl, rfl, rfl⟩

theorem Pres_trans {p q r : ConfigProvider} (h1 : Pres p q) (h2 : Pres q r) :
    Pres p r := by
  obtain ⟨a1, b1, c1, d1, e1⟩ := h1
  obtain ⟨a2, b2, c2, d2, e2⟩ := h2
  exact ⟨a2.trans a1, b2.trans b1, c2.trans c1, d2.trans d1, e2.trans e1⟩

theorem WPres_refl (w : World) : WPres w w := ⟨rfl, rfl⟩

theorem WPres_trans {w x y : World} (h1 : WPres w x) (h2 : WPres x y) :
    WPres w y :=
  ⟨h2.1.trans h1.1, h2.2.trans h1.2⟩

/-- While the re-entrancy flag is up, `getConfig` returns immediately
(no file read, no default materialization, no recursion), in either
lock state. -/
theorem getConfigF_settingDefaults {p : ConfigProvider} (w : World)
    (hsd : p.settingDefaults = true) (f : Nat) (mu : Bool) :
    getConfigF (f + 1) mu p w = Outcome.out (p, w, p.cfg.join) := by
  unfold getConfigF
  simp [hsd]

theorem writeConfig_pres {w : World} {p : ConfigProvider} {nd : JsonValue}
    {w2 : World} {p2 : ConfigProvider} {e : Option GoError}
    (h : writeConfig w p nd = (w2, p2, e)) : Pres p p2 ∧ WPres w w2 := by
  unfold writeConfig at h
  by_cases hf : p.fileName = []
  · rw [if_pos hf] at h
    cases h
    exact ⟨⟨rfl, rfl, rfl, rfl, rfl⟩, WPres_refl w⟩
  · rw [if_neg hf] at h
    by_cases hw : w.writeFails
    · rw [if_pos hw] at h
      cases h
      exact ⟨⟨rfl, rfl, rfl, rfl, rfl⟩, WPres_refl w⟩
    · rw [if_neg hw] at h
      cases h
      exact ⟨⟨rfl, rfl, rfl, rfl, rfl⟩, ⟨rfl, rfl⟩⟩

/-- `setWithScopeGo` preserves the untouched components, given that the
`getConfig` it calls does. -/
theorem setWithScopeGo_pres {f : Nat}
    (hG : ∀ mu p w p2 w2 doc,
      getConfigF f mu p w = Outcome.out (p2, w2, doc) →
      Pres p p2 ∧ WPres w w2)
    {mu : Bool} {scope key : GoString} {value : JsonValue}
    {p : ConfigProvider}
    {w : World} {p2 : ConfigProvider} {w2 : World} {e : Option GoError}
    (h : setWithScopeGo f mu scope key value p w = Outcome.out (p2, w2, e)) :
    Pres p p2 ∧ WPres w w2 := by
  unfold setWithScopeGo at h
  split at h
  case _ => cases h
  split at h
  case _ p1 w1 doc hg =>
    obtain ⟨hp1, hw1⟩ := hG true p w p1 w1 doc hg
    simp only [] at h
    split at h
    case _ err hs =>
      cases h
      exact ⟨hp1, hw1⟩
    case _ nd hs =>
      cases hwc : writeConfig w1 p1 nd with
      | mk w3 r3 =>
        obtain ⟨p3, e3⟩ := r3
        rw [hwc] at h
        cases h
        obtain ⟨hp3, hw3⟩ := writeConfig_pres hwc
        exact ⟨Pres_trans hp1 hp3, WPres_trans hw1 hw3⟩
  case _ => cases h
  case _ => cases h
  case _ => cases h

/-- `setWithScopeF` preserves the untouched components, given that the
`getConfig` at the same fuel does. -/
theorem setWithScopeF_pres {f : Nat}
    (hG : ∀ mu p w p2 w2 doc,
      getConfigF f mu p w = Outcome.out (p2, w2, doc) →
      Pres p p2 ∧ WPres w w2)
    {mu : Bool} {scope key : GoString} {value : JsonValue}
    {p : ConfigProvider}
    {w : World} {p2 : ConfigProvider} {w2 : World} {e : Option GoError}
    (h : setWithScopeF f mu scope key value p w = Outcome.out (p2, w2, e)) :
    Pres p p2 ∧ WPres w w2 := by
  unfold setWithScopeF at h
  split at h
  case _ v =>
    split at h
    case _ vf hvf =>
      split at h
      case _ err hve =>
        cases h
        exact ⟨Pres_refl p, WPres_refl w⟩
      case _ hve => exact setWithScopeGo_pres hG h
    case _ hvf => exact setWithScopeGo_pres hG h
  case _ =>
    split at h
    case _ hex =>
      cases h
      exact ⟨Pres_refl p, WPres_refl w⟩
    case _ hex => exact setWithScopeGo_pres hG h

/-- The default-materialization loop preserves the untouched
components, given that `setWithScopeF` at the same fuel does. -/
theorem setDefaultsLoopF_pres {f : Nat}
    (hS : ∀ mu scope key value p w p2 w2 e,
      setWithScopeF f mu scope key value p w = Outcome.out (p2, w2, e) →
      Pres p p2 ∧ WPres w w2)
    {mu : Bool} {fs : List FieldDefinition} {p : ConfigProvider} {w : World}
    {p2 : ConfigProvider} {w2 : World}
    (h : setDefaultsLoopF f mu fs p w = Outcome.out (p2, w2)) :
    Pres p p2 ∧ WPres w w2 := by
  induction fs generalizing p w with
  | nil =>
    unfold setDefaultsLoopF at h
    cases h
    exact ⟨Pres_refl _, WPres_refl _⟩
  | cons v rest ih =>
    unfold setDefaultsLoopF at h
    split at h
    case _ => exact ih h
    case _ d hdv =>
      split at h
      case _ p1 w1 hs =>
        obtain ⟨hp1, hw1⟩ := hS mu [] v.Key d p w p1 w1 none hs
        obtain ⟨hp2, hw2⟩ := ih h
        exact ⟨Pres_trans hp1 hp2, WPres_trans hw1 hw2⟩
      case _ => cases h
      case _ => cases h
      case _ => cases h
      case _ => cases h

theorem setConfigFromFile_pres (w : World) (p : ConfigProvider) :
    Pres p (setConfigFromFile w p) := by
  unfold setConfigFromFile
  cases w.file
  · exact Pres_refl p
  · exact ⟨rfl, rfl, rfl, rfl, rfl⟩

/-- `getConfigStep` preserves the untouched components (when entered
with the flag down, as `getConfig` does), given that the
materialization loop at the same fuel does. -/
theorem getConfigStep_pres {f : Nat}
    (hL : ∀ mu fs p w p2 w2,
      setDefaultsLoopF f mu fs p w = Outcome.out (p2, w2) →
      Pres p p2 ∧ WPres w w2)
    {mu : Bool} {p : ConfigProvider} {w : World} {p2 : ConfigProvider}
    {w2 : World}
    {doc : Option JsonValue} (hsd : p.settingDefaults = false)
    (h : getConfigStep f mu p w = Outcome.out (p2, w2, doc)) :
    Pres p p2 ∧ WPres w w2 := by
  unfold getConfigStep at h
  split at h
  · split at h
    case _ p3 w3 hloop =>
      cases h
      obtain ⟨hp3, hw3⟩ := hL _ _ _ _ _ _ hloop
      exact ⟨⟨hp3.1, hp3.2.1, hp3.2.2.1, hp3.2.2.2.1, hsd.symm⟩, hw3⟩
    case _ => cases h
    case _ => cases h
    case _ => cases h
  · cases h
    exact ⟨⟨rfl, rfl, rfl, rfl, rfl⟩, WPres_refl w⟩

/-- `getConfig` at any fuel preserves the untouched provider and world
components. -/
theorem getConfigF_pres (f : Nat) :
    ∀ mu p w p2 w2 doc, getConfigF f mu p w = Outcome.out (p2, w2, doc) →
      Pres p p2 ∧ WPres w w2 := by
  induction f with
  | zero =>
    intro mu p w p2 w2 doc h
    exact absurd h (by simp [getConfigF])
  | succ f ih =>
    intro mu p w p2 w2 doc h
    unfold getConfigF at h
    split at h
    case isTrue hcond =>
      have hsd : p.settingDefaults = false := by
        simp only [Bool.and_eq_true, Bool.not_eq_true'] at hcond
        exact hcond.1
      have hload : Pres p
          (if p.fileName = [] then p else setConfigFromFile w p) := by
        split
        · exact Pres_refl p
        · exact setConfigFromFile_pres w p
      have hsd1 :
          (if p.fileName = [] then p else setConfigFromFile w p).settingDefaults
            = false := hload.2.2.2.2.trans hsd
      obtain ⟨hp2, hw2⟩ := getConfigStep_pres
        (fun mu fs p w p2 w2 hloop => setDefaultsLoopF_pres
          (fun mu scope key value p w p2 w2 e hset =>
            setWithScopeF_pres
              (fun mu p w p2 w2 doc hg => ih mu p w p2 w2 doc hg)
              hset) hloop) hsd1 h
      exact ⟨Pres_trans hload hp2, hw2⟩
    case isFalse hcond =>
      cases h
      exact ⟨Pres_refl _, WPres_refl _⟩

/-- While the re-entrancy flag is up, `setWithScopeF` does not depend
on its (positive) fuel: with the lock held it deadlocks at `Lock()`
before any load, and with the lock free the inner load returns
immediately. -/
theorem setWithScopeF_sd {p : ConfigProvider} (hsd : p.settingDefaults = true)
    (f g : Nat) (mu : Bool) (scope key : GoString) (value : JsonValue)
    (w : World) :
    setWithScopeF (f + 1) mu scope key value p w =
      setWithScopeF (g + 1) mu scope key value p w := by
  unfold setWithScopeF setWithScopeGo
  rw [getConfigF_settingDefaults w hsd f true,
    getConfigF_settingDefaults w hsd g true]

/-- While the re-entrancy flag is up and the lock is free, the inner
`Set` always returns normally (no fatal, no deadlock, no fuel
exhaustion). -/
theorem setWithScopeF_sd_false_out {p : ConfigProvider}
    (hsd : p.settingDefaults = true) (f : Nat) (scope key : GoString)
    (value : JsonValue) (w : World) :
    ∃ p2 w2 e, setWithScopeF (f + 1) false scope key value p w =
      Outcome.out (p2, w2, e) := by
  unfold setWithScopeF setWithScopeGo
  simp only [Bool.false_eq_true, if_false]
  rw [getConfigF_settingDefaults w hsd f true]
  split
  case _ v =>
    split
    case _ vf hvf =>
      split
      case _ err hve => exact ⟨p, w, some err, rfl⟩
      case _ hve =>
        simp only []
        split
        case _ e he => exact ⟨p, w, some e, rfl⟩
        case _ nd hnd => exact ⟨_, _, _, rfl⟩
    case _ hvf =>
      simp only []
      split
      case _ e he => exact ⟨p, w, some e, rfl⟩
      case _ nd hnd => exact ⟨_, _, _, rfl⟩
  case _ =>
    split
    case _ hex => exact ⟨p, w, _, rfl⟩
    case _ hex =>
      simp only []
      split
      case _ e he => exact ⟨p, w, some e, rfl⟩
      case _ nd hnd => exact ⟨_, _, _, rfl⟩

/-- While the re-entrancy flag is up, the inner `Set` never exhausts
its (positive) fuel in either lock state: it returns, errors out,
or deadlocks at `Lock()` without recursing. -/
theorem setWithScopeF_sd_not_nofuel {p : ConfigProvider}
    (hsd : p.settingDefaults = true) (f : Nat) (mu : Bool)
    (scope key : GoString) (value : JsonValue) (w : World) :
    setWithScopeF (f + 1) mu scope key value p w ≠ Outcome.nofuel := by
  cases mu with
  | false =>
    obtain ⟨p2, w2, e, hout⟩ :=
      setWithScopeF_sd_false_out hsd f scope key value w
    rw [hout]
    simp
  | true =>
    unfold setWithScopeF setWithScopeGo
    split
    case _ v =>
      split
      case _ vf hvf =>
        split
        case _ err hve => simp
        case _ hve => simp
      case _ hvf => simp
    case _ =>
      split
      case _ hex => simp
      case _ hex => simp

/-- While the re-entrancy flag is up, the default-materialization loop
does not depend on its (positive) fuel. -/
theorem setDefaultsLoopF_sd {fs : List FieldDefinition} {p : ConfigProvider}
    {w : World} (hsd : p.settingDefaults = true) (f g : Nat) (mu : Bool) :
    setDefaultsLoopF (f + 1) mu fs p w =
      setDefaultsLoopF (g + 1) mu fs p w := by
  induction fs generalizing p w with
  | nil => unfold setDefaultsLoopF; rfl
  | cons v rest ih =>
    unfold setDefaultsLoopF
    cases hdv : v.Default with
    | none => simp only []; exact ih hsd
    | some d =>
      simp only []
      rw [setWithScopeF_sd hsd f g mu]
      cases hs : setWithScopeF (g + 1) mu [] v.Key d p w with
      | out r =>
        obtain ⟨p1, w1, e1⟩ := r
        have hp1 : p1.settingDefaults = true := by
          have := (setWithScopeF_pres
            (fun mu p w p2 w2 doc hg =>
              (getConfigF_pres (g + 1)) mu p w p2 w2 doc hg)
            hs).1.2.2.2.2
          rw [this, hsd]
        cases e1 with
        | none => simp only []; exact ih hp1
        | some err => rfl
      | fatal => rfl
      | deadlock => rfl
      | nofuel => rfl

/-- While the re-entrancy flag is up, the default-materialization loop
never exhausts its (positive) fuel, in either lock state. -/
theorem setDefaultsLoopF_sd_not_nofuel {fs : List FieldDefinition}
    {p : ConfigProvider} {w : World} (hsd : p.settingDefaults = true)
    (f : Nat) (mu : Bool) :
    setDefaultsLoopF (f + 1) mu fs p w ≠ Outcome.nofuel := by
  induction fs generalizing p w with
  | nil => simp [setDefaultsLoopF]
  | cons v rest ih =>
    unfold setDefaultsLoopF
    cases hdv : v.Default with
    | none => simp only []; exact ih hsd
    | some d =>
      simp only []
      cases hs : setWithScopeF (f + 1) mu [] v.Key d p w with
      | out r =>
        obtain ⟨p2, w2, e⟩ := r
        have hp2 : p2.settingDefaults = true := by
          have := (setWithScopeF_pres
            (fun mu p w p2 w2 doc hg =>
              (getConfigF_pres (f + 1)) mu p w p2 w2 doc hg)
            hs).1.2.2.2.2
          rw [this, hsd]
        cases e with
        | none => simp only []; exact ih hp2
        | some err => simp
      | fatal => simp
      | deadlock => simp
      | nofuel =>
        exact absurd hs (setWithScopeF_sd_not_nofuel hsd f mu [] v.Key d w)

/-- While the re-entrancy flag is up and the lock is free (the
get-triggered materialization), the loop never deadlocks. -/
theorem setDefaultsLoopF_sd_false_no_dead {fs : List FieldDefinition}
    {p : ConfigProvider} {w : World} (hsd : p.settingDefaults = true)
    (f : Nat) :
    setDefaultsLoopF (f + 1) false fs p w ≠ Outcome.deadlock := by
  induction fs generalizing p w with
  | nil => simp [setDefaultsLoopF]
  | cons v rest ih =>
    unfold setDefaultsLoopF
    cases hdv : v.Default with
    | none => simp only []; exact ih hsd
    | some d =>
      simp only []
      obtain ⟨p2, w2, e, hout⟩ :=
        setWithScopeF_sd_false_out hsd f [] v.Key d w
      rw [hout]
      have hp2 : p2.settingDefaults = true := by
        have := (setWithScopeF_pres
          (fun mu p w p2 w2 doc hg =>
            (getConfigF_pres (f + 1)) mu p w p2 w2 doc hg)
          hout).1.2.2.2.2
        rw [this, hsd]
      cases e with
      | none => simp only []; exact ih hp2
      | some err => simp

/-- `getConfigStep` does not depend on its (positive) fuel. -/
theorem getConfigStep_fuel (f g : Nat) (mu : Bool) (p : ConfigProvider)
    (w : World) :
    getConfigStep (f + 1) mu p w = getConfigStep (g + 1) mu p w := by
  unfold getConfigStep
  rw [setDefaultsLoopF_sd
    (show ({ p with settingDefaults := true } :
      ConfigProvider).settingDefaults = true from rfl) f g mu]

/-- `getConfigStep` never exhausts its (positive) fuel. -/
theorem getConfigStep_not_nofuel (f : Nat) (mu : Bool) (p : ConfigProvider)
    (w : World) :
    getConfigStep (f + 1) mu p w ≠ Outcome.nofuel := by
  unfold getConfigStep
  split
  · cases hloop : setDefaultsLoopF (f + 1) mu p.fields
        { p with settingDefaults := true } w with
    | out r => obtain ⟨p3, w3⟩ := r; simp
    | fatal => simp
    | deadlock => simp
    | nofuel =>
      exact absurd hloop (setDefaultsLoopF_sd_not_nofuel
        (show ({ p with settingDefaults := true } :
          ConfigProvider).settingDefaults = true from rfl) f mu)
  · simp

/-- With the lock free, `getConfigStep` never deadlocks. -/
theorem getConfigStep_false_no_dead (f : Nat) (p : ConfigProvider)
    (w : World) :
    getConfigStep (f + 1) false p w ≠ Outcome.deadlock := by
  unfold getConfigStep
  split
  · cases hloop : setDefaultsLoopF (f + 1) false p.fields
        { p with settingDefaults := true } w with
    | out r => obtain ⟨p3, w3⟩ := r; simp
    | fatal => simp
    | nofuel => simp
    | deadlock =>
      exact absurd hloop (setDefaultsLoopF_sd_false_no_dead
        (show ({ p with settingDefaults := true } :
          ConfigProvider).settingDefaults = true from rfl) f)
  · simp

/-- Fuel 2 is enough: `getConfig` computes the same result at any
larger fuel, in either lock state. -/
theorem getConfigF_fuel (f : Nat) (mu : Bool) (p : ConfigProvider)
    (w : World) :
    getConfigF (f + 2) mu p w = getConfigF 2 mu p w := by
  show getConfigF (f + 1 + 1) mu p w = getConfigF (0 + 1 + 1) mu p w
  unfold getConfigF
  split
  case isTrue hcond => exact getConfigStep_fuel (f + 0) 0 mu _ w
  case isFalse hcond => rfl

/-- Fuel 2 is never exhausted by `getConfig`, in either lock state. -/
theorem getConfigF_two_not_nofuel (mu : Bool) (p : ConfigProvider)
    (w : World) :
    getConfigF 2 mu p w ≠ Outcome.nofuel := by
  show getConfigF (0 + 1 + 1) mu p w ≠ Outcome.nofuel
  unfold getConfigF
  split
  case isTrue hcond => exact getConfigStep_not_nofuel 0 mu _ w
  case isFalse hcond => simp

/-- A load entered with the lock free (as every `GetWithScope` load
is) never deadlocks: the sets performed by materialization can still
acquire the free mutex, and their own inner loads return under the
re-entrancy flag. -/
theorem getConfigF_false_no_dead (p : ConfigProvider) (w : World) :
    getConfigF 2 false p w ≠ Outcome.deadlock := by
  show getConfigF (0 + 1 + 1) false p w ≠ Outcome.deadlock
  unfold getConfigF
  split
  case isTrue hcond => exact getConfigStep_false_no_dead 0 _ w
  case isFalse hcond => simp

/-! ### Inverting a successful SetWithScope, and the round-trip -/

theorem getFieldDefinition_congr {p p2 : ConfigProvider}
    (h : p2.fields = p.fields) (key : ConfigKey) :
    getFieldDefinition p2 key = getFieldDefinition p key := by
  unfold getFieldDefinition
  rw [h]

theorem getConfigValueKeys_congr {p p2 : ConfigProvider}
    (h : p2.fields = p.fields) :
    getConfigValueKeys p2 = getConfigValueKeys p := by
  unfold getConfigValueKeys
  rw [h]

/-- A successful `SetWithScope` went through: the under-lock load,
`sjson.Set` at the escaped resolved path, and a successful
`writeConfig` whose buffer replacement survives in the result. -/
theorem setWithScope_ok_inv {scope key : GoString} {value : JsonValue}
    {p : ConfigProvider} {w : World} {p2 : ConfigProvider} {w2 : World}
    (h : SetWithScope scope key value p w = Outcome.out (p2, w2, none)) :
    ∃ p1 w1 doc newdoc,
      getConfigF 2 true p w = Outcome.out (p1, w1, doc) ∧
      sjsonSet doc (escapeWildcards (pathFor p scope key)) value =
        Except.ok newdoc ∧
      p2 = { p1 with dirty := true, cfg := some (some newdoc) } ∧
      (p1.fileName = [] ∧ w2 = w1 ∨
        p1.fileName ≠ [] ∧ w1.writeFails = false ∧
          w2 = { w1 with file := some (some newdoc) }) := by
  unfold SetWithScope setWithScopeF at h
  have main : ∀ nk : ConfigKey, nk = normKey p key →
      setWithScopeGo 2 false scope nk value p w = Outcome.out (p2, w2, none) →
      ∃ p1 w1 doc newdoc,
        getConfigF 2 true p w = Outcome.out (p1, w1, doc) ∧
        sjsonSet doc (escapeWildcards (pathFor p scope key)) value =
          Except.ok newdoc ∧
        p2 = { p1 with dirty := true, cfg := some (some newdoc) } ∧
        (p1.fileName = [] ∧ w2 = w1 ∨
          p1.fileName ≠ [] ∧ w1.writeFails = false ∧
            w2 = { w1 with file := some (some newdoc) }) := by
    intro nk hnk hgo
    unfold setWithScopeGo at hgo
    split at hgo
    case isTrue hg => cases hgo
    case isFalse hg =>
      split at hgo
      case _ p1 w1 doc hg2 =>
        simp only [] at hgo
        split at hgo
        case _ err hs => cases hgo
        case _ nd hs =>
          refine ⟨p1, w1, doc, nd, hg2, ?_, ?_⟩
          · rw [pathFor, ← hnk]
            exact hs
          · unfold writeConfig at hgo
            by_cases hf : p1.fileName = []
            · rw [if_pos hf] at hgo
              simp only [] at hgo
              cases hgo
              exact ⟨rfl, Or.inl ⟨hf, rfl⟩⟩
            · rw [if_neg hf] at hgo
              by_cases hwf : w1.writeFails
              · rw [if_pos hwf] at hgo
                simp only [] at hgo
                cases hgo
              · rw [if_neg hwf] at hgo
                simp only [] at hgo
                cases hgo
                exact ⟨rfl, Or.inr ⟨hf, Bool.not_eq_true _ ▸ hwf, rfl⟩⟩
      case _ => cases hgo
      case _ => cases hgo
      case _ => cases hgo
  split at h
  case _ v hd =>
    have hnk : (if v.CaseSensitive then key else v.Key) = normKey p key := by
      unfold normKey
      rw [hd]
    split at h
    case _ vf hvf =>
      split at h
      case _ err hve => cases h
      case _ hve => exact main _ hnk h
    case _ hvf => exact main _ hnk h
  case _ hd =>
    have hnk : key = normKey p key := by
      unfold normKey
      rw [hd]
    split at h
    case _ hex => cases h
    case _ hex => exact main _ hnk h

/-- After a buffer replacement (persisted to the backing file when one
is configured), `getConfig` returns the replaced document, in either
lock state (no materialization happens on a non-empty buffer). -/
theorem getConfigF_after_write {p : ConfigProvider} {w : World}
    {nd : JsonValue} (mu : Bool) (hcfg : p.cfg = some (some nd))
    (hfile : p.fileName = [] ∨ w.file = some (some nd)) :
    ∃ p2, getConfigF 2 mu p w = Outcome.out (p2, w, some nd) := by
  cases hsd : p.settingDefaults with
  | true =>
    refine ⟨p, ?_⟩
    have := getConfigF_settingDefaults w hsd 1 mu
    rw [this, hcfg]
    rfl
  | false =>
    show ∃ p2, getConfigF (0 + 1 + 1) mu p w = Outcome.out (p2, w, some nd)
    unfold getConfigF
    cases hdirty : p.dirty with
    | false =>
      rw [if_neg (by simp [hsd, hcfg, hdirty])]
      exact ⟨p, by rw [hcfg]; rfl⟩
    | true =>
      rw [if_pos (by simp [hsd, hcfg, hdirty])]
      have hload : (if p.fileName = [] then p
          else setConfigFromFile w p).cfg = some (some nd) := by
        split
        case isTrue => exact hcfg
        case isFalse hf =>
          rcases hfile with hfe | hw
          · exact absurd hfe hf
          · unfold setConfigFromFile
            rw [hw]
      refine ⟨{ (if p.fileName = [] then p else setConfigFromFile w p) with
        dirty := false }, ?_⟩
      unfold getConfigStep
      rw [if_neg (by simp [bufEmpty, hload])]
      simp [hload]

/-- Set-then-get round-trip: when the resolved path contains no
wildcard characters and the key has no active environment override, a
successful `SetWithScope` followed by `GetWithScope` (same scope
argument) yields the written value. -/
theorem set_get_roundtrip {scope key : GoString} {value : JsonValue}
    {p : ConfigProvider} {w : World} {p2 : ConfigProvider} {w2 : World}
    (hset : SetWithScope scope key value p w = Outcome.out (p2, w2, none))
    (hstar : '*' ∉ pathFor p scope key) (hq : '?' ∉ pathFor p scope key)
    (henv : ∀ d, getFieldDefinition p key = some d → w.env d.EnvVar = none) :
    ∃ p3 w3, GetWithScope scope key p2 w2 =
      Outcome.out (p3, w3, Except.ok value) := by
  obtain ⟨p1, w1, doc, nd, hg, hs, hp2, hw2⟩ := setWithScope_ok_inv hset
  obtain ⟨hpres, hwpres⟩ := getConfigF_pres 2 true p w p1 w1 doc hg
  have henv2 : w2.env = w.env := by
    rcases hw2 with ⟨_, rfl⟩ | ⟨_, _, rfl⟩
    · exact hwpres.1
    · exact hwpres.1
  have hfields : p2.fields = p.fields := by
    rw [hp2]
    exact hpres.1
  have hscope : p2.scope = p.scope := by
    rw [hp2]
    exact hpres.2.1
  have hcfg2 : p2.cfg = some (some nd) := by rw [hp2]
  have hfile2 : p2.fileName = [] ∨ w2.file = some (some nd) := by
    rcases hw2 with ⟨hfe, rfl⟩ | ⟨_, _, rfl⟩
    · left
      rw [hp2]
      exact hfe
    · right
      rfl
  obtain ⟨p4, hgc⟩ := getConfigF_after_write false hcfg2 hfile2
  have hgjson := gjson_get_after_sjson_set hstar hq hs
  have hpath2 : resolvePath p2.scope scope (normKey p2 key) =
      pathFor p scope key := by
    unfold pathFor
    rw [hscope]
    unfold normKey
    rw [getFieldDefinition_congr hfields]
  have hgo : getWithScopeGo 2 scope (normKey p2 key) p2 w2 =
      Outcome.out (p4, w2, Except.ok value) := by
    unfold getWithScopeGo
    rw [hgc]
    simp only [hpath2]
    rw [hgjson]
  unfold GetWithScope getWithScopeF
  cases hd2 : getFieldDefinition p2 key with
  | some d =>
    have hd : getFieldDefinition p key = some d := by
      rw [← getFieldDefinition_congr hfields, hd2]
    simp only []
    rw [henv2, henv d hd]
    refine ⟨p4, w2, ?_⟩
    have hnk : (if d.CaseSensitive then key else d.Key) = normKey p2 key := by
      unfold normKey
      rw [hd2]
    simp only []
    rw [hnk]
    exact hgo
  | none =>
    refine ⟨p4, w2, ?_⟩
    have hnk : key = normKey p2 key := by
      unfold normKey
      rw [hd2]
    rw [hnk]
    exact hgo

/-! ### Default materialization on a fresh provider -/

theorem defaultEntries_append (a b : List FieldDefinition) :
    defaultEntries (a ++ b) = defaultEntries a ++ defaultEntries b := by
  unfold defaultEntries
  rw [List.filterMap_append]

theorem defaultEntries_keys_sub {fs : List FieldDefinition}
    {e : GoString × JsonValue} (h : e ∈ defaultEntries fs) :
    e.1 ∈ fs.map FieldDefinition.Key := by
  unfold defaultEntries at h
  rw [List.mem_filterMap] at h
  obtain ⟨v, hv, he⟩ := h
  cases hd : v.Default with
  | none => rw [hd] at he; cases he
  | some d =>
    rw [hd] at he
    cases he
    exact List.mem_map.mpr ⟨v, hv, rfl⟩

theorem resolvePath_nil_nil (k : GoString) : resolvePath [] [] k = k := by
  unfold resolvePath
  simp

/-- One materialization step: with the re-entrancy flag up, a fresh
key and a passing (or absent) validator, `Set` appends the default to
the object entries. -/
theorem setWithScope_materialize_step {p : ConfigProvider} {w : World}
    {v : FieldDefinition} {d : JsonValue} {es : List (GoString × JsonValue)}
    (hd : getFieldDefinition p v.Key = some v)
    (hvalv : ∀ vf, v.ValidationFunc = some vf → vf v.Key d = none)
    (hscope : p.scope = []) (hfile : p.fileName = [])
    (hsd : p.settingDefaults = true) (hpl : plainKey v.Key)
    (hcfg : p.cfg = bufOf es)
    (hnotin : es.find? (fun e => e.1 = v.Key) = none) :
    setWithScopeF 1 false [] v.Key d p w = Outcome.out
      ({ p with
          cfg := some (some (JsonValue.obj (es ++ [(v.Key, d)]))),
          dirty := true }, w, none) := by
  have hgo : setWithScopeGo 1 false [] v.Key d p w = Outcome.out
      ({ p with
          cfg := some (some (JsonValue.obj (es ++ [(v.Key, d)]))),
          dirty := true }, w, none) := by
    unfold setWithScopeGo
    simp only [Bool.false_eq_true, if_false]
    rw [getConfigF_settingDefaults w hsd 0 true]
    simp only [hscope, resolvePath_nil_nil]
    have hset : sjsonSet p.cfg.join (escapeWildcards v.Key) d =
        Except.ok (JsonValue.obj (es ++ [(v.Key, d)])) := by
      obtain ⟨hne, hdot, hstar, hq, hbs⟩ := hpl
      rw [escapeWildcards_id hstar hq]
      unfold sjsonSet
      rw [if_neg hne, parsePath_plain ⟨hne, hdot, hstar, hq, hbs⟩]
      rw [if_neg (by simp [compHasWild_map_lit])]
      have hlit : [List.map PTok.lit v.Key].map compLit = [v.Key] := by
        simp [compLit_map_lit]
      rw [hlit]
      cases es with
      | nil =>
        rw [hcfg]
        show Except.ok (setIn none [v.Key] d) = _
        unfold setIn
        rfl
      | cons e0 rest =>
        rw [hcfg]
        show Except.ok (setIn (some (JsonValue.obj (e0 :: rest))) [v.Key] d) = _
        unfold setIn
        simp only []
        rw [hnotin]
        rfl
    rw [hset]
    unfold writeConfig
    simp [hfile, hscope]
  unfold setWithScopeF
  rw [hd]
  simp only []
  have hnk : (if v.CaseSensitive then v.Key else v.Key) = v.Key := ite_self _
  cases hvf : v.ValidationFunc with
  | some vf =>
    simp only []
    rw [hvalv vf hvf]
    simp only [hnk]
    exact hgo
  | none =>
    simp only [hnk]
    exact hgo

/-- The materialization loop writes exactly the defaults of the
remaining fields, in order, after the already-written entries. -/
theorem setDefaultsLoop_materialize (P : ConfigProvider)
    (hlk : ∀ v ∈ P.fields, getFieldDefinition P v.Key = some v)
    (hpl : ∀ v ∈ P.fields, plainKey v.Key)
    (hval : ∀ v ∈ P.fields, ∀ vf d, v.ValidationFunc = some vf →
      v.Default = some d → vf v.Key d = none)
    (hdist : (P.fields.map FieldDefinition.Key).Pairwise (fun a b => a ≠ b)) :
    ∀ (rest done : List FieldDefinition) (p : ConfigProvider) (w : World),
      P.fields = done ++ rest →
      p.fields = P.fields → p.scope = [] → p.fileName = [] →
      p.settingDefaults = true →
      p.cfg = bufOf (defaultEntries done) →
      ∃ dirt, setDefaultsLoopF 1 false rest p w = Outcome.out
        ({ p with cfg := bufOf (defaultEntries P.fields), dirty := dirt },
          w) := by
  intro rest
  induction rest with
  | nil =>
    intro done p w hfs hpf hps hpfile hpsd hpcfg
    refine ⟨p.dirty, ?_⟩
    unfold setDefaultsLoopF
    have : bufOf (defaultEntries P.fields) = p.cfg := by
      rw [hpcfg, hfs, List.append_nil]
    rw [this]
  | cons v rest2 ih =>
    intro done p w hfs hpf hps hpfile hpsd hpcfg
    have hvP : v ∈ P.fields := by
      rw [hfs]
      exact List.mem_append.mpr (Or.inr (List.mem_cons_self _ _))
    have hfs2 : P.fields = (done ++ [v]) ++ rest2 := by
      rw [hfs, List.append_assoc]
      rfl
    unfold setDefaultsLoopF
    cases hdv : v.Default with
    | none =>
      simp only []
      have hde : defaultEntries (done ++ [v]) = defaultEntries done := by
        rw [defaultEntries_append]
        simp [defaultEntries, hdv]
      obtain ⟨dirt, hrec⟩ := ih (done ++ [v]) p w hfs2 hpf hps hpfile hpsd
        (by rw [hpcfg, hde])
      exact ⟨dirt, hrec⟩
    | some d =>
      simp only []
      have hdP : getFieldDefinition p v.Key = some v := by
        rw [show getFieldDefinition p v.Key = getFieldDefinition P v.Key from
          getFieldDefinition_congr hpf v.Key]
        exact hlk v hvP
      have hnotin : (defaultEntries done).find?
          (fun e => e.1 = v.Key) = none := by
        rw [List.find?_eq_none]
        intro e he
        simp only [decide_eq_true_eq]
        intro hek
        have hkdone : e.1 ∈ done.map FieldDefinition.Key :=
          defaultEntries_keys_sub he
        have hkv : v.Key ∈ (v :: rest2).map FieldDefinition.Key :=
          List.mem_map.mpr ⟨v, List.mem_cons_self _ _, rfl⟩
        have hpair := hdist
        rw [hfs, List.map_append, List.pairwise_append] at hpair
        exact hpair.2.2 e.1 hkdone v.Key hkv hek
      have hstep := setWithScope_materialize_step (w := w) hdP
        (fun vf hvf => hval v hvP vf d hvf hdv) hps hpfile hpsd
        (hpl v hvP) hpcfg hnotin
      rw [hstep]
      simp only []
      have hde : defaultEntries (done ++ [v]) =
          defaultEntries done ++ [(v.Key, d)] := by
        rw [defaultEntries_append]
        simp [defaultEntries, hdv]
      have hbuf : (some (some (JsonValue.obj
          (defaultEntries done ++ [(v.Key, d)]))) :
            Option (Option JsonValue)) =
          bufOf (defaultEntries (done ++ [v])) := by
        rw [hde]
        cases hdone : defaultEntries done with
        | nil => rfl
        | cons e0 es0 => rfl
      obtain ⟨dirt, hrec⟩ := ih (done ++ [v])
        { p with cfg := some (some (JsonValue.obj
            (defaultEntries done ++ [(v.Key, d)]))), dirty := true } w
        hfs2 hpf hps hpfile hpsd hbuf
      refine ⟨dirt, ?_⟩
      rw [hrec]

theorem defaultEntries_cons_none {v : FieldDefinition}
    {fs : List FieldDefinition} (h : v.Default = none) :
    defaultEntries (v :: fs) = defaultEntries fs := by
  simp [defaultEntries, h]

theorem defaultEntries_cons_some {v : FieldDefinition}
    {fs : List FieldDefinition} {d : JsonValue} (h : v.Default = some d) :
    defaultEntries (v :: fs) = (v.Key, d) :: defaultEntries fs := by
  simp [defaultEntries, h]

/-- With pairwise-distinct keys, the materialized entries hold each
definition's default at its key (first match). -/
theorem find?_defaultEntries {fs : List FieldDefinition}
    {D : FieldDefinition} {d : JsonValue} (hmem : D ∈ fs)
    (hd : D.Default = some d)
    (hdist : (fs.map FieldDefinition.Key).Pairwise (fun a b => a ≠ b)) :
    (defaultEntries fs).find? (fun e => tmatch (D.Key.map PTok.lit) e.1) =
      some (D.Key, d) := by
  induction fs with
  | nil => cases hmem
  | cons v rest ih =>
    rw [List.map_cons, List.pairwise_cons] at hdist
    rw [List.mem_cons] at hmem
    rcases hmem with rfl | hmem
    · rw [defaultEntries_cons_some hd]
      rw [List.find?_cons_of_pos _ (by simp [tmatch_lits])]
    · have hvk : v.Key ≠ D.Key :=
        hdist.1 D.Key (List.mem_map.mpr ⟨D, hmem, rfl⟩)
      cases hv : v.Default with
      | none =>
        rw [defaultEntries_cons_none hv]
        exact ih hmem hdist.2
      | some dv =>
        rw [defaultEntries_cons_some hv]
        rw [List.find?_cons_of_neg _ (by
          simp only [tmatch_lits, decide_eq_true_eq]
          exact fun hh => hvk hh.symm)]
        exact ih hmem hdist.2

theorem bufOf_join_of_ne {E : List (GoString × JsonValue)} (h : E ≠ []) :
    (bufOf E).join = some (JsonValue.obj E) := by
  cases E with
  | nil => exact absurd rfl h
  | cons e es => rfl

/-- On a fresh provider (nil buffer, no backing file, no fixed scope),
`get` of a registered key with a non-nil default and no environment
override returns that default, provided every registered key resolves
to its own definition, keys are plain and pairwise distinct, and every
default passes its own validator. -/
theorem fresh_get_default {P : ConfigProvider} {w : World}
    {D : FieldDefinition} {dflt : JsonValue}
    (hcfg : P.cfg = none) (hfile : P.fileName = []) (hscope : P.scope = [])
    (hsd : P.settingDefaults = false)
    (hlk : ∀ v ∈ P.fields, getFieldDefinition P v.Key = some v)
    (hpl : ∀ v ∈ P.fields, plainKey v.Key)
    (hval : ∀ v ∈ P.fields, ∀ vf d, v.ValidationFunc = some vf →
      v.Default = some d → vf v.Key d = none)
    (hdist : (P.fields.map FieldDefinition.Key).Pairwise (fun a b => a ≠ b))
    (hD : D ∈ P.fields) (hDd : D.Default = some dflt)
    (henv : w.env D.EnvVar = none) :
    ∃ p3, GetWithScope [] D.Key P w = Outcome.out (p3, w, Except.ok dflt) := by
  have hEntry : (D.Key, dflt) ∈ defaultEntries P.fields := by
    unfold defaultEntries
    rw [List.mem_filterMap]
    exact ⟨D, hD, by rw [hDd]; rfl⟩
  have hEne : defaultEntries P.fields ≠ [] := by
    intro hnil
    rw [hnil] at hEntry
    cases hEntry
  obtain ⟨dirt, hloop⟩ := setDefaultsLoop_materialize P hlk hpl hval hdist
    P.fields [] { P with settingDefaults := true } w rfl rfl hscope hfile rfl
    (by rw [hcfg]; rfl)
  have hgc : getConfigF 2 false P w = Outcome.out
      ({ P with
          settingDefaults := false,
          dirty := false,
          cfg := bufOf (defaultEntries P.fields) }, w,
        some (JsonValue.obj (defaultEntries P.fields))) := by
    show getConfigF (0 + 1 + 1) false P w = _
    unfold getConfigF
    rw [if_pos (by simp [hsd, hcfg]), if_pos hfile]
    unfold getConfigStep
    rw [if_pos (by simp [bufEmpty, hcfg])]
    rw [hloop]
    simp only []
    rw [bufOf_join_of_ne hEne]
  have hD2 : getFieldDefinition P D.Key = some D := hlk D hD
  have hfind := find?_defaultEntries hD hDd hdist
  have hgjson : gjsonGet (some (JsonValue.obj (defaultEntries P.fields)))
      D.Key = some dflt := by
    unfold gjsonGet
    simp only [Option.some_bind]
    rw [parsePath_plain (hpl D hD)]
    unfold getPath
    simp only []
    rw [hfind]
    simp [getPath]
  refine ⟨{ P with
      settingDefaults := false,
      dirty := false,
      cfg := bufOf (defaultEntries P.fields) }, ?_⟩
  unfold GetWithScope getWithScopeF
  rw [hD2]
  simp only []
  rw [henv]
  simp only [ite_self]
  unfold getWithScopeGo
  rw [hgc]
  simp only [hscope, resolvePath_nil_nil]
  rw [hgjson]

/-! ### Scope precedence -/

theorem resolvePath_fixed {pscope : GoString} (h : pscope ≠ [])
    (scope k : GoString) : resolvePath pscope scope k = pscope ++ '.' :: k := by
  unfold resolvePath
  simp [h]

theorem getWithScopeGo_scope_invariant {p : ConfigProvider} {w : World}
    (h : p.scope ≠ []) (s1 s2 key : GoString) (f : Nat) :
    getWithScopeGo f s1 key p w = getWithScopeGo f s2 key p w := by
  unfold getWithScopeGo
  simp only [resolvePath_fixed h]

theorem setWithScopeGo_scope_invariant {p : ConfigProvider} {w : World}
    (h : p.scope ≠ []) (s1 s2 key : GoString) (value : JsonValue) (f : Nat)
    (mu : Bool) :
    setWithScopeGo f mu s1 key value p w =
      setWithScopeGo f mu s2 key value p w := by
  unfold setWithScopeGo
  simp only [resolvePath_fixed h]

/-! ### Claim fixtures -/

/-! ### C1 -/

/-- C1: for every key whose matching registered field definition names
an environment variable that is set in the process environment,
`GetWithScope` (with any scope) returns the environment value as a
string — the provider and world are untouched, so the result is
independent of any stored document value and of the definition's
default. -/
theorem C1_env_override_wins (p : ConfigProvider) (w : World)
    (scope key : GoString) (d : FieldDefinition) (e : GoString)
    (hd : getFieldDefinition p key = some d)
    (he : w.env d.EnvVar = some e) :
    GetWithScope scope key p w =
      Outcome.out (p, w, Except.ok (JsonValue.str e)) := by
  unfold GetWithScope getWithScopeF
  rw [hd]
  simp only []
  rw [he]

theorem C1_witness :
    getFieldDefinition pC1 (("region").toList) = some regionField ∧
    wC1.env regionField.EnvVar = some (("eu").toList) ∧
    GetWithScope (("anyScope").toList) (("region").toList) pC1 wC1 =
      Outcome.out (pC1, wC1, Except.ok (JsonValue.str ("eu").toList)) :=
  ⟨by rfl, by rfl,
    C1_env_override_wins pC1 wC1 (("anyScope").toList) (("region").toList)
      regionField (("eu").toList) (by rfl) (by rfl)⟩

/-! ### C7 -/

/-- C7: when the matching field definition carries a validation
function that rejects the candidate value, `SetWithScope` returns
exactly the validator's error and leaves the provider (hence the
stored document) and the world untouched, so a subsequent get returns
whatever it returned before the failed set. -/
theorem C7_validation_failure_atomic (p : ConfigProvider) (w : World)
    (scope key : GoString) (value : JsonValue) (d : FieldDefinition)
    (vf : ConfigKey → JsonValue → Option GoError) (err : GoError)
    (hd : getFieldDefinition p key = some d)
    (hvf : d.ValidationFunc = some vf) (hve : vf key value = some err) :
    SetWithScope scope key value p w = Outcome.out (p, w, some err) := by
  unfold SetWithScope setWithScopeF
  rw [hd]
  simp only []
  rw [hvf]
  simp only []
  rw [hve]

theorem C7_witness :
    getFieldDefinition pC1 (("region").toList) = some regionField ∧
    regionField.ValidationFunc =
      some (StringInStrings false [("us").toList, ("eu").toList]) ∧
    StringInStrings false [("us").toList, ("eu").toList] (("region").toList)
      (JsonValue.str ("xx").toList) =
      some (GoError.notInAllowed ("xx").toList
        [("us").toList, ("eu").toList]) ∧
    SetWithScope [] (("region").toList) (JsonValue.str ("xx").toList)
      pC1 envNone =
      Outcome.out (pC1, envNone, some (GoError.notInAllowed ("xx").toList
        [("us").toList, ("eu").toList])) :=
  ⟨by rfl, by rfl, by rfl,
    C7_validation_failure_atomic pC1 envNone [] (("region").toList)
      (JsonValue.str ("xx").toList) regionField
      (StringInStrings false [("us").toList, ("eu").toList])
      (GoError.notInAllowed ("xx").toList [("us").toList, ("eu").toList])
      (by rfl) (by rfl) (by rfl)⟩

/-! ### C9 -/

/-- C9 counterexample: the lazy-load path does not terminate for every
provider state.  On a fresh provider with one default-bearing field,
the first `Set` (of an unregistered key) and the first `RemoveScope`
acquire `p.mu` and then find the buffer empty, so the load
materializes defaults while the lock is held — and the inner `Set`
blocks forever at its own `p.mu.Lock()` on the non-reentrant mutex.
The same load triggered from a lock-free `get` completes and returns
the default. -/
theorem C9_counterexample :
    pDead.cfg = none ∧
    fdK1 ∈ pDead.fields ∧
    fdK1.Default = some (JsonValue.num 1) ∧
    SetWithScope [] (("other").toList) (JsonValue.num 5) pDead envNone =
      Outcome.deadlock ∧
    RemoveScope (("s").toList) pDead envNone = Outcome.deadlock ∧
    GetWithScope [] fdK1.Key pDead envNone =
      Outcome.out (pDeadAfter, envNone, Except.ok (JsonValue.num 1)) := by
  refine ⟨by rfl, List.mem_cons_self _ _, by rfl, ?_, ?_, ?_⟩
  · unfold SetWithScope setWithScopeF setWithScopeGo getConfigF
      getConfigStep setDefaultsLoopF
    unfold setWithScopeF setWithScopeGo
    rfl
  · unfold RemoveScope removeScopeF getConfigF getConfigStep
      setDefaultsLoopF setWithScopeF setWithScopeGo
    rfl
  · simp [GetWithScope, getWithScopeF, getWithScopeGo, getConfigF,
      getConfigStep, setDefaultsLoopF, setWithScopeF, setWithScopeGo,
      writeConfig, setConfigFromFile, sjsonSet, gjsonGet, getPath, setIn,
      buildNested, replaceKeyFirst, parsePath, consTok, escapeWildcards,
      compHasWild, compLit, tmatch, suffixes, getFieldDefinition,
      getConfigValueKeys, eqFold, resolvePath, bufEmpty, pDead, pDeadAfter,
      fdK1, emptyProvider, envNone, List.find?, Option.join]

/-- C9 (amended): the `getConfig` / default-materialization mutual
recursion always bottoms out after one materialization pass — fuel 2
is never exhausted and any larger fuel computes the same result, in
either lock state — and a load entered with the mutex free (as every
load triggered from `GetWithScope` is) returns rather than
deadlocking.  The original "for every provider state" fails only for
the load run while `SetWithScope`/`RemoveScope` hold `p.mu`: if that
load must materialize a default, the inner `Set` blocks forever on the
already-held non-reentrant mutex. -/
theorem C9_lazy_load_bounded (p : ConfigProvider) (w : World) (f : Nat)
    (mu : Bool) :
    getConfigF (f + 2) mu p w = getConfigF 2 mu p w ∧
    getConfigF 2 mu p w ≠ Outcome.nofuel ∧
    getConfigF 2 false p w ≠ Outcome.deadlock :=
  ⟨getConfigF_fuel f mu p w, getConfigF_two_not_nofuel mu p w,
    getConfigF_false_no_dead p w⟩

/-! ### C8 -/

/-- C8: when the provider was constructed with a non-empty fixed
scope, both `GetWithScope` and `SetWithScope` resolve the fixed scope
prefixing the (normalized) key, for every call-site scope argument —
the call-site scope never affects the result; with no fixed scope, a
non-empty call-site scope prefixes the key instead. -/
theorem C8_fixed_scope_wins (p : ConfigProvider) (w : World)
    (s1 s2 key : GoString) (value : JsonValue) :
    (p.scope ≠ [] →
      GetWithScope s1 key p w = GetWithScope s2 key p w ∧
      SetWithScope s1 key value p w = SetWithScope s2 key value p w ∧
      pathFor p s1 key = p.scope ++ '.' :: normKey p key) ∧
    (p.scope = [] → s1 ≠ [] →
      pathFor p s1 key = s1 ++ '.' :: normKey p key) := by
  constructor
  · intro h
    refine ⟨?_, ?_, ?_⟩
    · unfold GetWithScope getWithScopeF
      cases hd : getFieldDefinition p key with
      | some d =>
        simp only []
        cases he : w.env d.EnvVar with
        | some e => rfl
        | none => exact getWithScopeGo_scope_invariant h s1 s2 _ 2
      | none => exact getWithScopeGo_scope_invariant h s1 s2 _ 2
    · unfold SetWithScope setWithScopeF
      cases hd : getFieldDefinition p key with
      | some d =>
        simp only []
        cases hvf : d.ValidationFunc with
        | some vf =>
          simp only []
          cases hve : vf key value with
          | some err => rfl
          | none => exact setWithScopeGo_scope_invariant h s1 s2 _ value 2 false
        | none => exact setWithScopeGo_scope_invariant h s1 s2 _ value 2 false
      | none =>
        cases hex : p.explicitValues with
        | true => simp [hex]
        | false =>
          simp only [hex, if_false]
          exact setWithScopeGo_scope_invariant h s1 s2 _ value 2 false
    · unfold pathFor
      exact resolvePath_fixed h s1 _
  · intro h hs
    unfold pathFor resolvePath
    simp [h, hs]

theorem C8_witness :
    pC8.scope ≠ [] ∧
    GetWithScope (("callsite").toList) (("k").toList) pC8 envNone =
      GetWithScope (("other").toList) (("k").toList) pC8 envNone ∧
    SetWithScope (("callsite").toList) (("k").toList) (JsonValue.num 1)
        pC8 envNone =
      SetWithScope (("other").toList) (("k").toList) (JsonValue.num 1)
        pC8 envNone ∧
    pathFor pC8 (("callsite").toList) (("k").toList) =
      pC8.scope ++ '.' :: normKey pC8 (("k").toList) ∧
    pathFor emptyProvider (("callsite").toList) (("k").toList) =
      ("callsite").toList ++ '.' :: normKey emptyProvider (("k").toList) := by
  have h1 := (C8_fixed_scope_wins pC8 envNone (("callsite").toList)
    (("other").toList) (("k").toList) (JsonValue.num 1)).1 (by simp [pC8])
  have h2 := (C8_fixed_scope_wins emptyProvider envNone (("callsite").toList)
    (("other").toList) (("k").toList) (JsonValue.num 1)).2 (by rfl)
    (by simp)
  exact ⟨by simp [pC8], h1.1, h1.2.1, h1.2.2, h2⟩

/-! ### C2 -/

/-- C2 counterexample: on a provider with no field definitions (hence
no environment override) holding `{"ab": 1}`, `set("a*", 2)` succeeds
and stores the literal key `a*` (escaped for sjson), but the
immediately following `get("a*")` reads the unescaped path as a glob
pattern, matches the earlier key `ab` first, and returns `1`, not the
value `2` just written. -/
theorem C2_counterexample :
    SetWithScope [] (("ab").toList) (JsonValue.num 1) emptyProvider envNone =
      Outcome.out (c2p1, envNone, none) ∧
    SetWithScope [] (("a*").toList) (JsonValue.num 2) c2p1 envNone =
      Outcome.out (c2p2, envNone, none) ∧
    GetWithScope [] (("a*").toList) c2p2 envNone =
      Outcome.out (c2p2r, envNone, Except.ok (JsonValue.num 1)) ∧
    getFieldDefinition c2p2 (("a*").toList) = none ∧
    JsonValue.num 1 ≠ JsonValue.num 2 := by
  refine ⟨?_, ?_, ?_, by rfl, by simp⟩
  · unfold SetWithScope setWithScopeF setWithScopeGo getConfigF
      getConfigStep setDefaultsLoopF
    rfl
  · unfold SetWithScope setWithScopeF setWithScopeGo getConfigF
      getConfigStep setDefaultsLoopF
    rfl
  · unfold GetWithScope getWithScopeF getWithScopeGo getConfigF
      getConfigStep setDefaultsLoopF
    rfl

/-- C2 (amended): a successful `set(K, V)` followed immediately by
`get(K)` (same scope arguments) returns `V`, except when `K`'s field
definition names a set environment variable — and except also when the
resolved path contains the wildcard characters `*` or `?`: `set`
escapes them (addressing the literal key) but `get` does not, so the
path acts as a pattern there and may match a different key. For
wildcard-free paths and no environment override, the round-trip
holds. -/
theorem C2_set_get_roundtrip (scope key : GoString) (value : JsonValue)
    (p : ConfigProvider) (w : World) (p2 : ConfigProvider) (w2 : World)
    (hset : SetWithScope scope key value p w = Outcome.out (p2, w2, none))
    (hstar : '*' ∉ pathFor p scope key) (hq : '?' ∉ pathFor p scope key)
    (henv : ∀ d, getFieldDefinition p key = some d → w.env d.EnvVar = none) :
    ∃ p3 w3, GetWithScope scope key p2 w2 =
      Outcome.out (p3, w3, Except.ok value) :=
  set_get_roundtrip hset hstar hq henv

theorem C2_witness :
    SetWithScope [] (("k").toList) (JsonValue.num 5) emptyProvider envNone =
      Outcome.out (c2wp, envNone, none) ∧
    ('*' ∉ pathFor emptyProvider [] (("k").toList)) ∧
    ('?' ∉ pathFor emptyProvider [] (("k").toList)) ∧
    ∃ p3 w3, GetWithScope [] (("k").toList) c2wp envNone =
      Outcome.out (p3, w3, Except.ok (JsonValue.num 5)) := by
  have hset : SetWithScope [] (("k").toList) (JsonValue.num 5) emptyProvider
      envNone = Outcome.out (c2wp, envNone, none) := by
    simp [SetWithScope, setWithScopeF, setWithScopeGo, getConfigF,
      getConfigStep, setDefaultsLoopF, writeConfig, sjsonSet, parsePath,
      consTok, compHasWild, compLit, setIn, buildNested, bufEmpty,
      getFieldDefinition, resolvePath, escapeWildcards, emptyProvider,
      envNone, c2wp]
  refine ⟨hset, by decide, by decide, ?_⟩
  exact C2_set_get_roundtrip [] (("k").toList) (JsonValue.num 5)
    emptyProvider envNone c2wp envNone hset (by decide) (by decide)
    (fun d h => by simp [getFieldDefinition, emptyProvider] at h)

/-! ### C3 -/

/-- C3 counterexample: a fresh provider legitimately constructed with
two case-sensitive definitions sharing the key `k` (defaults `1` and
`2`). Materialization writes the defaults in registration order to the
same resolved path, so the later default overwrites the earlier one,
and `get(k)` returns `2` — not `fdK1.Default = 1` — even though `fdK1`
is a registered definition with a non-nil default, no environment
override, no backing file and no prior state. -/
theorem C3_counterexample :
    NewConfigProvider [WithFieldDefinitions [fdK1, fdK2]] = Except.ok c3p ∧
    fdK1 ∈ c3p.fields ∧
    fdK1.Default = some (JsonValue.num 1) ∧
    envNone.env fdK1.EnvVar = none ∧
    GetWithScope [] fdK1.Key c3p envNone =
      Outcome.out (c3pr, envNone, Except.ok (JsonValue.num 2)) ∧
    JsonValue.num 2 ≠ JsonValue.num 1 := by
  refine ⟨by rfl, List.mem_cons_self _ _, by rfl, by rfl, ?_, by simp⟩
  simp [GetWithScope, getWithScopeF, getWithScopeGo, getConfigF,
    getConfigStep, setDefaultsLoopF, setWithScopeF, setWithScopeGo,
    writeConfig, setConfigFromFile, sjsonSet, gjsonGet, getPath, setIn,
    buildNested, replaceKeyFirst, parsePath, consTok, escapeWildcards,
    compHasWild, compLit, tmatch, suffixes, getFieldDefinition,
    getConfigValueKeys, eqFold, resolvePath, bufEmpty, c3p, c3pr, fdK1, fdK2,
    emptyProvider, envNone, List.find?, Option.join]

/-- C3 (amended): on a freshly constructed provider (nil buffer, no
backing file, no fixed scope, flag down), `get(D.Key)` before any
explicit set returns `D.Default` for every registered definition `D`
with a non-nil default and no environment override — provided every
registered key resolves (by the field-matching rules) to its own
definition, the keys are plain (nonempty, free of `.`, `*`, `?`, `\`)
and pairwise distinct, and every non-nil default passes its own
definition's validator. Defaults are materialized lazily, in
registration order, on this first access. -/
theorem C3_fresh_provider_default (P : ConfigProvider) (w : World)
    (D : FieldDefinition) (dflt : JsonValue)
    (hcfg : P.cfg = none) (hfile : P.fileName = []) (hscope : P.scope = [])
    (hsd : P.settingDefaults = false)
    (hlk : ∀ v ∈ P.fields, getFieldDefinition P v.Key = some v)
    (hpl : ∀ v ∈ P.fields, plainKey v.Key)
    (hval : ∀ v ∈ P.fields, ∀ vf d, v.ValidationFunc = some vf →
      v.Default = some d → vf v.Key d = none)
    (hdist : (P.fields.map FieldDefinition.Key).Pairwise (fun a b => a ≠ b))
    (hD : D ∈ P.fields) (hDd : D.Default = some dflt)
    (henv : w.env D.EnvVar = none) :
    ∃ p3, GetWithScope [] D.Key P w = Outcome.out (p3, w, Except.ok dflt) :=
  fresh_get_default hcfg hfile hscope hsd hlk hpl hval hdist hD hDd henv

theorem C3_witness :
    regionField ∈ pC3W.fields ∧
    regionField.Default = some (JsonValue.str ("us").toList) ∧
    envNone.env regionField.EnvVar = none ∧
    ∃ p3, GetWithScope [] regionField.Key pC3W envNone =
      Outcome.out (p3, envNone, Except.ok (JsonValue.str ("us").toList)) := by
  refine ⟨List.mem_cons_self _ _, by rfl, by rfl, ?_⟩
  refine C3_fresh_provider_default pC3W envNone regionField
    (JsonValue.str ("us").toList) (by rfl) (by rfl) (by rfl) (by rfl)
    ?_ ?_ ?_ (by decide) (List.mem_cons_self _ _) (by rfl) (by rfl)
  · intro v hv
    rcases List.mem_cons.mp hv with rfl | hv2
    · rfl
    · rcases List.mem_cons.mp hv2 with rfl | h3
      · rfl
      · cases h3
  · intro v hv
    rcases List.mem_cons.mp hv with rfl | hv2
    · decide
    · rcases List.mem_cons.mp hv2 with rfl | h3
      · decide
      · cases h3
  · intro v hv vf d hvf hd
    rcases List.mem_cons.mp hv with rfl | hv2
    · cases hvf
      cases hd
      rfl
    · rcases List.mem_cons.mp hv2 with rfl | h3
      · cases hvf
      · cases h3

/-! ### C4 -/

/-- Escaping a backslash-free path leaves no active wildcard token. -/
theorem parsePath_escape_noWild (s : GoString) (hbs : '\\' ∉ s) :
    ∀ c ∈ parsePath (escapeWildcards s), compHasWild c = false := by
  induction s with
  | nil =>
    intro c hc
    simp only [escapeWildcards, parsePath, List.mem_singleton] at hc
    subst hc; rfl
  | cons c0 rest ih =>
    simp only [List.mem_cons, not_or] at hbs
    intro c hc
    simp only [escapeWildcards] at hc
    by_cases hw : c0 = '*' ∨ c0 = '?'
    · rw [if_pos (by rcases hw with rfl | rfl <;> simp)] at hc
      rw [parsePath.eq_def] at hc
      simp only [if_neg (show ¬('\\' = '.') by decide),
        if_pos rfl] at hc
      exact consTok_noWild (by rfl) (ih hbs.2) c hc
    · rw [if_neg (by
        simp only [Bool.or_eq_true, decide_eq_true_eq, not_or] at hw ⊢
        exact hw)] at hc
      by_cases hdot : c0 = '.'
      · subst hdot
        rw [parsePath.eq_def] at hc
        simp only [if_pos rfl] at hc
        rcases List.mem_cons.mp hc with rfl | hc2
        · rfl
        · exact ih hbs.2 c hc2
      · rw [parsePath_step hdot (fun hh => hbs.1 hh.symm)
          (fun hh => hw (Or.inl hh)) (fun hh => hw (Or.inr hh))] at hc
        exact consTok_noWild (by rfl) (ih hbs.2) c hc

/-- C4 counterexample: on a provider holding `{"ab": 1}`, `get("a*")`
returns `1` — the raw, unescaped path acted as a glob pattern and
addressed the key `ab`, not the literal key `a*` (the escaped path
finds nothing); and `removeScope("x*")` forwards the raw wildcard to
the underlying sjson delete, which rejects it. So it is false that
get, set and removeScope all escape wildcards before the sparse-path
operations. -/
theorem C4_counterexample :
    GetWithScope [] (("a*").toList) pC4 envNone =
      Outcome.out (pC4, envNone, Except.ok (JsonValue.num 1)) ∧
    gjsonGet (some c4doc) (escapeWildcards (("a*").toList)) = none ∧
    RemoveScope (("x*").toList) pC4 envNone =
      Outcome.out (pC4, envNone, some GoError.sjsonWildcard) := by
  refine ⟨?_, by rfl, ?_⟩
  · simp [GetWithScope, getWithScopeF, getWithScopeGo, getConfigF,
      getConfigStep, setDefaultsLoopF, gjsonGet, getPath, parsePath, consTok,
      tmatch, suffixes, getFieldDefinition, resolvePath, bufEmpty, pC4,
      c4doc, emptyProvider, envNone, List.find?, Option.join]
  · simp [RemoveScope, removeScopeF, getConfigF, getConfigStep,
      setDefaultsLoopF, sjsonDelete, parsePath, consTok, compHasWild,
      bufEmpty, pC4, c4doc, emptyProvider, envNone, Option.join]

/-- C4 (amended): the wildcard characters `*` and `?` are escaped only
on the `set` path — for any backslash-free path, no wildcard survives
escaping, so `set` addresses the literal key and the underlying
`sjson.Set` never rejects its path as a pattern. `get` and
`removeScope` pass the raw path instead: in `get` wildcards act as
glob patterns (here matching the key `ab` for the path `a*`), and in
`removeScope` they make the underlying delete fail. -/
theorem C4_only_set_escapes :
    (∀ s : GoString, '\\' ∉ s → ∀ (doc : Option JsonValue) (v : JsonValue),
      sjsonSet doc (escapeWildcards s) v ≠
        Except.error GoError.sjsonWildcard) ∧
    GetWithScope [] (("a*").toList) pC4 envNone =
      Outcome.out (pC4, envNone, Except.ok (JsonValue.num 1)) ∧
    RemoveScope (("x*").toList) pC4 envNone =
      Outcome.out (pC4, envNone, some GoError.sjsonWildcard) := by
  refine ⟨?_, ?_, ?_⟩
  · intro s hbs doc v
    unfold sjsonSet
    split
    · simp
    · split
      · rename_i hne hw
        exfalso
        rw [List.any_eq_true] at hw
        obtain ⟨c, hc, hcw⟩ := hw
        rw [parsePath_escape_noWild s hbs c hc] at hcw
        cases hcw
      · simp
  · simp [GetWithScope, getWithScopeF, getWithScopeGo, getConfigF,
      getConfigStep, setDefaultsLoopF, gjsonGet, getPath, parsePath, consTok,
      tmatch, suffixes, getFieldDefinition, resolvePath, bufEmpty, pC4,
      c4doc, emptyProvider, envNone, List.find?, Option.join]
  · simp [RemoveScope, removeScopeF, getConfigF, getConfigStep,
      setDefaultsLoopF, sjsonDelete, parsePath, consTok, compHasWild,
      bufEmpty, pC4, c4doc, emptyProvider, envNone, Option.join]

theorem C4_witness :
    ('\\' ∉ ("a*").toList) ∧
    sjsonSet (some c4doc) (escapeWildcards (("a*").toList))
      (JsonValue.num 2) ≠ Except.error GoError.sjsonWildcard :=
  ⟨by decide, C4_only_set_escapes.1 (("a*").toList) (by decide)
    (some c4doc) (JsonValue.num 2)⟩

/-! ### C5 -/

/-- C5 counterexample: registering the case-sensitive `key` first and
then the case-insensitive `KEY` — one case-sensitive and one
case-insensitive definition sharing a case-folded key — fails with the
duplicate-key error, because the duplicate check compares a new
case-insensitive key against all previously registered keys; the claim
says this order succeeds. -/
theorem C5_counterexample :
    eqFold fdCS.Key fdCI.Key = true ∧
    fdCS.CaseSensitive = true ∧
    fdCI.CaseSensitive = false ∧
    NewConfigProvider [WithFieldDefinitions [fdCS, fdCI]] =
      Except.error (GoError.duplicateKey (("KEY").toList)) :=
  ⟨by rfl, by rfl, by rfl, by rfl⟩

/-- C5 (amended): for two definitions whose keys case-fold to the same
string, registering them in order `[d1, d2]` succeeds exactly when the
second is case-sensitive: a new case-sensitive definition is never
checked for duplicates, while a new case-insensitive definition is
checked against all already-registered keys. Hence two
case-insensitive definitions fail in either order, case-insensitive
then case-sensitive succeeds, and case-sensitive then case-insensitive
fails with the duplicate-key error. -/
theorem C5_registration_order (d1 d2 : FieldDefinition)
    (hfold : eqFold d1.Key d2.Key = true) :
    WithFieldDefinitions [d1, d2] emptyProvider =
      if d2.CaseSensitive then
        Except.ok { emptyProvider with fields := [d1, d2] }
      else Except.error (GoError.duplicateKey d2.Key) := by
  cases hcs : d2.CaseSensitive with
  | true =>
    simp [WithFieldDefinitions, getConfigValueKeys, emptyProvider, hcs]
  | false =>
    simp [WithFieldDefinitions, getConfigValueKeys, emptyProvider, hcs,
      hfold]

theorem C5_witness :
    eqFold fdCI.Key fdCS.Key = true ∧
    WithFieldDefinitions [fdCI, fdCS] emptyProvider =
      Except.ok { emptyProvider with fields := [fdCI, fdCS] } := by
  refine ⟨by rfl, ?_⟩
  have h := C5_registration_order fdCI fdCS (by rfl)
  exact h.trans (if_pos rfl)

/-! ### C6 -/

theorem resolvePath_ne_nil {k : GoString} (hk : k ≠ []) (a b : GoString) :
    resolvePath a b k ≠ [] := by
  unfold resolvePath
  simp only []
  split
  · split
    · exact hk
    · simp
  · simp

/-- C6 counterexample: on a provider not in explicit-values mode with
an unregistered key, `set` does not always succeed as the claim
states: with a backing file whose write fails, `set("k", 1)` returns
the persistence error. -/
theorem C6_counterexample :
    getFieldDefinition pFileFail (("k").toList) = none ∧
    pFileFail.explicitValues = false ∧
    SetWithScope [] (("k").toList) (JsonValue.num 1) pFileFail wFileFail =
      Outcome.out (pFileFailAfter, wFileFail, some GoError.fileWrite) ∧
    (some GoError.fileWrite ≠ (none : Option GoError)) := by
  refine ⟨by rfl, by rfl, ?_, by simp⟩
  simp [SetWithScope, setWithScopeF, setWithScopeGo, getConfigF,
    getConfigStep, setDefaultsLoopF, writeConfig, sjsonSet, parsePath,
    consTok, compHasWild, compLit, setIn, buildNested, replaceKeyFirst,
    bufEmpty, getFieldDefinition, resolvePath, escapeWildcards,
    pFileFail, pFileFailAfter, wFileFail, emptyProvider, Option.join,
    List.find?]

/-- C6 (amended): for a key with no registered field definition: in
explicit-values mode, `set` fails with the unknown-key error whose
message enumerates all registered keys, leaving the provider and world
untouched; in non-explicit mode the registry never rejects the write
— and provided the lazy load `set` performs while holding `p.mu`
returns (in particular it does not deadlock materializing defaults on
the already-held non-reentrant mutex), no backing file is configured
(so persistence cannot fail), the key is nonempty and the resolved
path is wildcard-free, `set` succeeds and a subsequent `get` retrieves
the value. -/
theorem C6_unregistered_key (p : ConfigProvider) (w : World)
    (scope key : GoString) (value : JsonValue) :
    (p.explicitValues = true → getFieldDefinition p key = none →
      SetWithScope scope key value p w = Outcome.out
        (p, w, some (GoError.unknownKey key (getConfigValueKeys p)))) ∧
    (p.explicitValues = false → getFieldDefinition p key = none →
      p.fileName = [] → key ≠ [] →
      '*' ∉ pathFor p scope key → '?' ∉ pathFor p scope key →
      ∀ p1 w1 doc, getConfigF 2 true p w = Outcome.out (p1, w1, doc) →
      ∃ p2 w2, SetWithScope scope key value p w =
          Outcome.out (p2, w2, none) ∧
        ∃ p3 w3, GetWithScope scope key p2 w2 =
          Outcome.out (p3, w3, Except.ok value)) := by
  constructor
  · intro hex hd
    unfold SetWithScope setWithScopeF
    rw [hd]
    simp [hex]
  · intro hex hd hfile hkey hstar hq p1 w1 doc hload
    have hnk : normKey p key = key := by
      unfold normKey
      rw [hd]
    have hpath : pathFor p scope key = resolvePath p.scope scope key := by
      unfold pathFor
      rw [hnk]
    have hpne : resolvePath p.scope scope key ≠ [] :=
      resolvePath_ne_nil hkey _ _
    have hnowild : (parsePath (resolvePath p.scope scope key)).any
        compHasWild = false := by
      rw [List.any_eq_false]
      intro c hc
      simp only [Bool.not_eq_true]
      exact parsePath_noWildChars _ (hpath ▸ hstar) (hpath ▸ hq) c hc
    have hsjson : sjsonSet doc
        (escapeWildcards (resolvePath p.scope scope key)) value =
        Except.ok (setIn doc
          ((parsePath (resolvePath p.scope scope key)).map compLit)
          value) := by
      rw [escapeWildcards_id (hpath ▸ hstar) (hpath ▸ hq)]
      unfold sjsonSet
      rw [if_neg hpne, if_neg (by simp [hnowild])]
    have hp1file : p1.fileName = [] := by
      have := (getConfigF_pres 2 true p w p1 w1 doc hload).1.2.2.1
      rw [this, hfile]
    have hset : SetWithScope scope key value p w = Outcome.out
        ({ p1 with
            dirty := true,
            cfg := some (some (setIn doc
              ((parsePath (resolvePath p.scope scope key)).map compLit)
              value)) }, w1, none) := by
      unfold SetWithScope setWithScopeF
      rw [hd]
      simp only [hex, if_false]
      unfold setWithScopeGo
      rw [hload]
      simp only []
      rw [hsjson]
      unfold writeConfig
      simp [hp1file]
    refine ⟨_, w1, hset, ?_⟩
    exact set_get_roundtrip hset hstar hq
      (fun d h => absurd (h.symm.trans hd) (by simp))

theorem C6_witness :
    getFieldDefinition pExplicit (("k").toList) = none ∧
    pExplicit.explicitValues = true ∧
    SetWithScope [] (("k").toList) (JsonValue.num 1) pExplicit envNone =
      Outcome.out (pExplicit, envNone,
        some (GoError.unknownKey (("k").toList)
          (getConfigValueKeys pExplicit))) ∧
    getFieldDefinition emptyProvider (("k").toList) = none ∧
    emptyProvider.explicitValues = false ∧
    ∃ p2 w2, SetWithScope [] (("k").toList) (JsonValue.num 1)
        emptyProvider envNone = Outcome.out (p2, w2, none) ∧
      ∃ p3 w3, GetWithScope [] (("k").toList) p2 w2 =
        Outcome.out (p3, w3, Except.ok (JsonValue.num 1)) := by
  have hload : getConfigF 2 true emptyProvider envNone =
      Outcome.out (emptyProvider, envNone, none) := by
    unfold getConfigF getConfigStep setDefaultsLoopF
    rfl
  refine ⟨by rfl, by rfl, ?_, by rfl, by rfl, ?_⟩
  · exact (C6_unregistered_key pExplicit envNone [] (("k").toList)
      (JsonValue.num 1)).1 (by rfl) (by rfl)
  · exact (C6_unregistered_key emptyProvider envNone [] (("k").toList)
      (JsonValue.num 1)).2 (by rfl) (by rfl) (by rfl) (by simp)
      (by decide) (by decide) emptyProvider envNone none hload

/-! ### C10 -/

/-- C10: when a provider has a backing file and persisting the new
document fails, `set` returns the I/O error, but the in-memory buffer
has already been replaced with the new document and marked dirty (the
pre-call state is not restored), and the dirty mark makes the next
`getConfig` reload the document from the backing file, discarding the
in-memory replacement. -/
theorem C10_persist_failure_state (p : ConfigProvider) (w : World)
    (scope key : GoString) (value : JsonValue) (d0 f0 : JsonValue)
    (hd : getFieldDefinition p key = none) (hex : p.explicitValues = false)
    (hcfg : p.cfg = some (some d0)) (hdirty : p.dirty = false)
    (hsd : p.settingDefaults = false) (hfile : p.fileName ≠ [])
    (hwf : w.writeFails = true) (hkey : key ≠ [])
    (hstar : '*' ∉ pathFor p scope key) (hq : '?' ∉ pathFor p scope key)
    (hf0 : w.file = some (some f0)) :
    ∃ nd, sjsonSet (some d0) (escapeWildcards (pathFor p scope key)) value =
        Except.ok nd ∧
      SetWithScope scope key value p w = Outcome.out
        ({ p with dirty := true, cfg := some (some nd) }, w,
          some GoError.fileWrite) ∧
      getConfigF 2 false { p with dirty := true, cfg := some (some nd) } w =
        Outcome.out ({ p with dirty := false, cfg := some (some f0) }, w,
          some f0) := by
  have hnk : normKey p key = key := by
    unfold normKey
    rw [hd]
  have hpath : pathFor p scope key = resolvePath p.scope scope key := by
    unfold pathFor
    rw [hnk]
  have hstar2 : '*' ∉ resolvePath p.scope scope key := hpath ▸ hstar
  have hq2 : '?' ∉ resolvePath p.scope scope key := hpath ▸ hq
  have hgc : getConfigF 2 true p w = Outcome.out (p, w, some d0) := by
    show getConfigF (0 + 1 + 1) true p w = _
    unfold getConfigF
    rw [if_neg (by simp [hsd, hcfg, hdirty])]
    rw [hcfg]
    rfl
  have hsjson : sjsonSet (some d0)
      (escapeWildcards (resolvePath p.scope scope key)) value =
      Except.ok (setIn (some d0)
        ((parsePath (resolvePath p.scope scope key)).map compLit) value) := by
    rw [escapeWildcards_id hstar2 hq2]
    unfold sjsonSet
    have hnw : (parsePath (resolvePath p.scope scope key)).any
        compHasWild = false := by
      rw [List.any_eq_false]
      intro c hc
      simp only [Bool.not_eq_true]
      exact parsePath_noWildChars _ hstar2 hq2 c hc
    rw [if_neg (resolvePath_ne_nil hkey _ _), if_neg (by simp [hnw])]
  refine ⟨setIn (some d0)
    ((parsePath (resolvePath p.scope scope key)).map compLit) value,
    by rw [hpath]; exact hsjson, ?_, ?_⟩
  · unfold SetWithScope setWithScopeF
    rw [hd]
    simp only [hex]
    unfold setWithScopeGo
    rw [hgc]
    simp only []
    rw [hsjson]
    unfold writeConfig
    simp [hex, hfile, hwf]
  · show getConfigF (0 + 1 + 1) false _ w = _
    unfold getConfigF
    rw [if_pos (by simp [hsd])]
    rw [if_neg hfile]
    unfold setConfigFromFile
    rw [hf0]
    unfold getConfigStep
    rw [if_neg (by simp [bufEmpty])]
    rfl

theorem C10_witness :
    getFieldDefinition pFileFail (("k").toList) = none ∧
    pFileFail.fileName ≠ [] ∧
    wFileFail.writeFails = true ∧
    ∃ nd, sjsonSet (some (JsonValue.obj [(("x").toList, JsonValue.num 9)]))
        (escapeWildcards (pathFor pFileFail [] (("k").toList)))
        (JsonValue.num 1) = Except.ok nd ∧
      SetWithScope [] (("k").toList) (JsonValue.num 1) pFileFail wFileFail =
        Outcome.out ({ pFileFail with
          dirty := true, cfg := some (some nd) }, wFileFail,
          some GoError.fileWrite) ∧
      getConfigF 2 false
          { pFileFail with dirty := true, cfg := some (some nd) }
          wFileFail =
        Outcome.out ({ pFileFail with
          dirty := false,
          cfg := some (some (JsonValue.obj
            [(("x").toList, JsonValue.num 9)])) }, wFileFail,
          some (JsonValue.obj [(("x").toList, JsonValue.num 9)])) := by
  refine ⟨by rfl, by simp [pFileFail], by rfl, ?_⟩
  exact C10_persist_failure_state pFileFail wFileFail [] (("k").toList)
    (JsonValue.num 1) (JsonValue.obj [(("x").toList, JsonValue.num 9)])
    (JsonValue.obj [(("x").toList, JsonValue.num 9)]) (by rfl) (by rfl)
    (by rfl) (by rfl) (by rfl) (by simp [pFileFail]) (by rfl) (by simp)
    (by decide) (by decide) (by rfl)

end Configuration
